import Mathlib

/-!
Verification of the ZUOLANDAPLINK core against its specification.

This file contains a shallow embedding, in Lean 4, of the parts of the
Rust source relevant to the checked claims:

* `src-tauri/src/pack/flash_algo.rs`  — FLM (flash-algorithm ELF) extraction;
* `src-tauri/src/pack/target_gen.rs`  — PDSC device parsing, target YAML
  algorithm collection, scan-report generation;
* `src-tauri/src/pack/scan_report.rs` — scan-report counters;
* `src-tauri/src/pack/manager.rs`     — pack import;
* `src-tauri/src/commands/flash.rs`   — flash progress accounting and verify;
* `src-tauri/src/commands/rtt.rs`     — RTT start/stop and the polling loop.

Conventions of the embedding:

* Rust `u64`/`u32`/`usize` values are modelled as `Nat`.  The source uses
  `saturating_sub` at every subtraction that could underflow, which is
  exactly `Nat` subtraction.  Additions in the modelled code operate far
  below `2^64`, so wrap-around is not modelled.
* Byte buffers are `List Nat` with each element intended `< 256`.
* `f32` progress fractions are modelled as `ℚ`; the literals `0.30`,
  `0.60`, `0.95`, `0.98`, `1.0` of the source become `3/10`, `6/10`,
  `19/20`, `49/50`, `1`.  Monotonicity and range statements transfer
  because all floating-point operations involved are monotone.
* `HashMap` is modelled as an association list where `insert` prepends and
  `lookup` takes the first (i.e. most recent) binding, which matches the
  map's observable lookup behaviour.
* Fallible Rust functions returning `AppResult<T>` become
  `Except String T`; the error strings are those of the source.
* File-system reads are made explicit inputs (an FLM file is a record of
  its file name plus the parsed ELF; an archive is a list of entries).
-/

/-! ## Generic helpers: association lists and strings -/

/-- First-match lookup in an association list keyed by strings.  Models
`HashMap::get` when insertion prepends (latest insert wins). -/
def alookup {α : Type} : List (String × α) → String → Option α
  | [], _ => none
  | (k, v) :: m, key => if k = key then some v else alookup m key

/-- Whether `sub` occurs as a contiguous run inside `l`.  Models Rust
`str::contains` on the underlying character lists. -/
def listContainsSeq (sub : List Char) : List Char → Bool
  | [] => sub.isEmpty
  | c :: rest => sub.isPrefixOf (c :: rest) || listContainsSeq sub rest

/-- Rust `str::contains` (substring occurrence). -/
def strContains (s pat : String) : Bool :=
  listContainsSeq pat.data s.data

/-- Rust `str::starts_with` (character-list based so that the kernel can
evaluate it). -/
def strStartsWith (s pat : String) : Bool :=
  pat.data.isPrefixOf s.data

/-- Rust `str::ends_with`. -/
def strEndsWith (s pat : String) : Bool :=
  pat.data.isSuffixOf s.data

/-- Rust `str::to_uppercase` restricted to its ASCII action, which is all
the source applies it to (device and file names). -/
def strUpper (s : String) : String :=
  ⟨s.data.map Char.toUpper⟩

/-- Rust `str::to_lowercase` restricted to its ASCII action. -/
def strLower (s : String) : String :=
  ⟨s.data.map Char.toLower⟩

/-- Remove repeated occurrences of the suffix `pat` from `l`; fuelled
recursion (the fuel is set to the list length by the wrapper).  Models
Rust `str::trim_end_matches`. -/
def trimEndSeq (pat : List Char) : Nat → List Char → List Char
  | 0, l => l
  | fuel + 1, l =>
    if pat ≠ [] ∧ pat.isSuffixOf l then
      trimEndSeq pat fuel (l.take (l.length - pat.length))
    else l

/-- Rust `str::trim_end_matches pat` (removes every trailing copy of `pat`). -/
def strTrimEndMatches (s pat : String) : String :=
  ⟨trimEndSeq pat.data s.data.length s.data⟩

/-- Portion of a file name before its last `.`; the whole name when it has
no `.`.  Models `Path::file_stem` for the plain file names used here. -/
def fileStem (s : String) : String :=
  let r := s.data.reverse
  if r.contains '.' then ⟨((r.dropWhile (· ≠ '.')).drop 1).reverse⟩ else s

/-- Little-endian `u32` read at byte offset `i`, out-of-range bytes read
as `0` (the source guards all reads by length checks, so the default is
never exercised on the guarded paths).  Models `u32::from_le_bytes`. -/
def readLe32 (d : List Nat) (i : Nat) : Nat :=
  d.getD i 0 + 256 * d.getD (i + 1) 0 + 65536 * d.getD (i + 2) 0 +
    16777216 * d.getD (i + 3) 0

/-! ## ELF model (inputs of `pack/flash_algo.rs`)

The `object` crate's view of an ELF is modelled by the section and symbol
data the extractor actually consults.  `bytes` is the result of
`section.data()` (empty for `nobits` sections) and `size` is
`section.size()`. -/

inductive SectionKind where
  | text
  | data
  | uninitializedData
  | other
deriving DecidableEq, Repr

structure ElfSection where
  name : String
  addr : Nat
  kind : SectionKind
  bytes : List Nat
  size : Nat
deriving DecidableEq, Repr

structure ElfSymbol where
  name : String
  addr : Nat
  size : Nat
deriving DecidableEq, Repr

structure ElfFile where
  sections : List ElfSection
  symbols : List ElfSymbol
deriving DecidableEq, Repr

/-- An FLM file of a pack: its file name together with its parsed ELF
content (the model makes the file system explicit). -/
structure FlmFile where
  fileName : String
  elf : ElfFile
deriving DecidableEq, Repr

/-! ## `pack/flash_algo.rs`: data model -/

structure AddressRange where
  start : Nat
  stop : Nat
deriving DecidableEq, Repr

structure SectorInfo where
  size : Nat
  address : Nat
deriving DecidableEq, Repr

structure FlashProperties where
  address_range : AddressRange
  page_size : Nat
  erased_byte_value : Nat
  program_page_timeout : Nat
  erase_sector_timeout : Nat
  sectors : List SectorInfo
deriving DecidableEq, Repr

/-- `FlashAlgorithm` of `flash_algo.rs`.  `instructions` holds the raw
blob bytes; the source stores their base64 rendering, an injective
encoding that the claims never inspect. -/
structure FlashAlgorithm where
  name : String
  description : String
  dflt : Bool
  instructions : List Nat
  pc_init : Option Nat
  pc_uninit : Option Nat
  pc_program_page : Nat
  pc_erase_sector : Nat
  pc_erase_all : Option Nat
  data_section_offset : Nat
  flash_properties : FlashProperties
deriving DecidableEq, Repr

structure FlashSector where
  size : Nat
  address : Nat
deriving DecidableEq, Repr

/-- The CMSIS `FlashDevice` header parsed out of the ELF.  The device name
is kept as its raw bytes (the source lossily decodes them to a string the
claims never use). -/
structure FlashDevice where
  name : List Nat
  start_address : Nat
  device_size : Nat
  page_size : Nat
  erased_default_value : Nat
  program_page_timeout : Nat
  erase_sector_timeout : Nat
  sectors : List FlashSector
deriving DecidableEq, Repr

/-- Sector-descriptor table walk of `FlashDevice::from_elf_data`: 8-byte
entries from `offset` while in bounds, stopping at the `0xFFFFFFFF`
sentinel, keeping entries with `size > 0`.  The fuel is the byte length of
the data, an upper bound on the number of 8-byte steps. -/
def parseFlashSectors (d : List Nat) : Nat → Nat → List FlashSector
  | 0, _ => []
  | fuel + 1, offset =>
    if offset + 8 ≤ d.length then
      let ssize := readLe32 d offset
      let saddr := readLe32 d (offset + 4)
      if ssize = 0xFFFFFFFF then []
      else if 0 < ssize then
        ⟨ssize, saddr⟩ :: parseFlashSectors d fuel (offset + 8)
      else parseFlashSectors d fuel (offset + 8)
    else []

/-- `FlashDevice::from_elf_data`: fixed-layout header read, `none` when
the data is shorter than `0xA0` bytes. -/
def FlashDevice.from_elf_data (d : List Nat) : Option FlashDevice :=
  if d.length < 0xA0 then none
  else
    some
      { name := ((d.drop 0x02).take 128).takeWhile (· ≠ 0)
        start_address := readLe32 d 0x84
        device_size := readLe32 d 0x88
        page_size := readLe32 d 0x8C
        erased_default_value := d.getD 0x94 0
        program_page_timeout := readLe32 d 0x98
        erase_sector_timeout := readLe32 d 0x9C
        sectors := parseFlashSectors d d.length 0xA0 }

/-- Slice of a section's data covering the symbol at `addr` of byte length
`size`, following `extract_flash_device`'s in-section search: the address
must fall inside the section's address range and inside its data. -/
def sectionSlice (s : ElfSection) (addr size : Nat) : Option (List Nat) :=
  if s.addr ≤ addr ∧ addr < s.addr + s.size then
    let off := addr - s.addr
    let stop := min (off + size) s.bytes.length
    if off < s.bytes.length then some ((s.bytes.drop off).take (stop - off))
    else none
  else none

/-- Symbol scan of `extract_flash_device`: for each symbol named
`FlashDevice`, the first section slice covering it is parsed; a symbol
not covered by any section's data is skipped and the scan continues. -/
def extractFlashDeviceGo (sections : List ElfSection) :
    List ElfSymbol → Option FlashDevice
  | [] => none
  | s :: rest =>
    if s.name = "FlashDevice" then
      match sections.findSome? (fun sec => sectionSlice sec s.addr s.size) with
      | some d => FlashDevice.from_elf_data d
      | none => extractFlashDeviceGo sections rest
    else extractFlashDeviceGo sections rest

/-- `extract_flash_device` of `flash_algo.rs`. -/
def extract_flash_device (elf : ElfFile) : Option FlashDevice :=
  extractFlashDeviceGo elf.sections elf.symbols

/-- Accumulator of the section scan in `extract_algorithm_blob`. -/
structure BlobScan where
  code : Option (Nat × List Nat)
  data : Option (Nat × List Nat)
  bss : Nat
deriving Repr

/-- First pass of `extract_algorithm_blob`: walk the sections, recording
(last wins) the `PrgCode` data, the `PrgData` initialised data, and the
`PrgData` BSS size. -/
def scanCmsisSections (secs : List ElfSection) : BlobScan :=
  secs.foldl
    (fun st s =>
      if s.name = "PrgCode" then { st with code := some (s.addr, s.bytes) }
      else if s.name = "PrgData" then
        if s.kind = SectionKind.uninitializedData then { st with bss := s.size }
        else { st with data := some (s.addr, s.bytes) }
      else st)
    ⟨none, none, 0⟩

/-- `extract_algorithm_blob`: CMSIS section names with fallback to the
first non-empty text / data section; blob = code ∥ zero-pad to the data
offset ∥ data ∥ BSS zero fill.  Returns `(blob, code_start, data_offset)`. -/
def extract_algorithm_blob (elf : ElfFile) :
    Except String (List Nat × Nat × Nat) :=
  let st := scanCmsisSections elf.sections
  let code :=
    match st.code with
    | some c => some c
    | none =>
      (elf.sections.find? fun (s : ElfSection) =>
          decide (s.kind = SectionKind.text ∧ s.bytes ≠ [])).map
        fun (s : ElfSection) => (s.addr, s.bytes)
  let dataSec :=
    match st.data with
    | some d => some d
    | none =>
      (elf.sections.find? fun (s : ElfSection) =>
          decide (s.kind = SectionKind.data ∧ s.bytes ≠ [])).map
        fun (s : ElfSection) => (s.addr, s.bytes)
  match code with
  | none => .error "未找到代码段"
  | some (codeStart, codeBytes) =>
    match dataSec with
    | some (dataAddr, dataBytes) =>
      let dataOffset := dataAddr - codeStart
      let padded :=
        if codeBytes.length < dataOffset then
          codeBytes ++ List.replicate (dataOffset - codeBytes.length) 0
        else codeBytes
      .ok (padded ++ dataBytes ++ List.replicate st.bss 0, codeStart, dataOffset)
    | none =>
      .ok (codeBytes ++ List.replicate st.bss 0, codeStart, codeBytes.length)

/-- The five function names kept by `extract_function_symbols`. -/
def isWantedSymbol (n : String) : Bool :=
  n = "Init" || n = "UnInit" || n = "ProgramPage" || n = "EraseSector" ||
    n = "EraseChip"

/-- Per-symbol step of `extract_function_symbols` (the body of its loop):
a wanted symbol is inserted with its offset from the code-section start
(`saturating_sub`, i.e. `Nat` subtraction) and the Thumb bit forced:
`offset ||| 1`. -/
def efsStep (codeStart : Nat) (m : List (String × Nat)) (s : ElfSymbol) :
    List (String × Nat) :=
  if isWantedSymbol s.name then (s.name, (s.addr - codeStart) ||| 1) :: m
  else m

/-- `extract_function_symbols`: fold `efsStep` over the symbol table.
Later symbols of the same name shadow earlier ones, as with
`HashMap::insert`. -/
def extract_function_symbols (elf : ElfFile) (codeStart : Nat) :
    List (String × Nat) :=
  elf.symbols.foldl (efsStep codeStart) []

/-- Expansion of one `FlashDevice` sector descriptor into concrete sectors
of `size` bytes from `addr` up to `regionEnd` (the `while addr < region_end`
loop of `build_sectors_from_flash_device`).  Fuelled; the wrapper passes
`regionEnd` as fuel, enough for every `size ≥ 1` (the parser only keeps
positive sizes). -/
def expandSectorRegion (size : Nat) : Nat → Nat → Nat → List SectorInfo
  | 0, _, _ => []
  | fuel + 1, addr, regionEnd =>
    if addr < regionEnd then
      ⟨size, addr⟩ :: expandSectorRegion size fuel (addr + size) regionEnd
    else []

/-- `generate_default_sectors`: 4 KiB sectors covering `flash_size`,
addresses relative to the flash start (first sector at 0). -/
def generate_default_sectors (flash_size : Nat) : List SectorInfo :=
  (List.range ((flash_size + 4096 - 1) / 4096)).map fun i => ⟨4096, i * 4096⟩

/-- Per-descriptor step of `build_sectors_from_flash_device`: the region
of descriptor `i` ends at descriptor `i+1`'s offset, or at `device_size`
for the last descriptor. -/
def buildSectorsGo (deviceSize : Nat) : List FlashSector → List SectorInfo
  | [] => []
  | d :: rest =>
    let regionEnd :=
      match rest with
      | [] => deviceSize
      | d' :: _ => d'.address
    expandSectorRegion d.size regionEnd d.address regionEnd ++
      buildSectorsGo deviceSize rest

/-- `build_sectors_from_flash_device`: expand the descriptor list; fall
back to default sectors when the list is empty or expands to nothing. -/
def build_sectors_from_flash_device (fd : FlashDevice) : List SectorInfo :=
  if fd.sectors = [] then generate_default_sectors fd.device_size
  else
    let sectors := buildSectorsGo fd.device_size fd.sectors
    if sectors = [] then generate_default_sectors fd.device_size else sectors

/-- `extract_flash_algorithm_from_flm`: the full extraction pipeline of
`flash_algo.rs` lines 149–232.  The model takes the FLM file as parsed
ELF data (file read and ELF parse failures are upstream error paths the
claims do not touch). -/
def extract_flash_algorithm_from_flm (flm : FlmFile)
    (flash_start flash_size : Nat) : Except String FlashAlgorithm :=
  let flash_device := extract_flash_device flm.elf
  match extract_algorithm_blob flm.elf with
  | .error e => .error e
  | .ok (blob, code_start, data_offset) =>
    let symbols := extract_function_symbols flm.elf code_start
    let sectors :=
      match flash_device with
      | some fd => build_sectors_from_flash_device fd
      | none => generate_default_sectors flash_size
    let pageEtc :=
      match flash_device with
      | some fd =>
        (fd.page_size, fd.program_page_timeout, fd.erase_sector_timeout,
          fd.erased_default_value)
      | none => (256, 1000, 2000, 0xFF)
    match alookup symbols "ProgramPage" with
    | none => .error "未找到 ProgramPage 函数"
    | some pp =>
      match alookup symbols "EraseSector" with
      | none => .error "未找到 EraseSector 函数"
      | some es =>
        .ok
          { name := fileStem flm.fileName
            description := "Flash algorithm from CMSIS-Pack"
            dflt := true
            instructions := blob
            pc_init := alookup symbols "Init"
            pc_uninit := alookup symbols "UnInit"
            pc_program_page := pp
            pc_erase_sector := es
            pc_erase_all := alookup symbols "EraseChip"
            data_section_offset := data_offset
            flash_properties :=
              { address_range := ⟨flash_start, flash_start + flash_size⟩
                page_size := pageEtc.1
                erased_byte_value := pageEtc.2.2.2
                program_page_timeout := pageEtc.2.1
                erase_sector_timeout := pageEtc.2.2.1
                sectors := sectors } }


/-! ## Claim C1: FLM entry points -/

lemma lor_one_mod_two (n : Nat) : (n ||| 1) % 2 = 1 := by
  have h : (n ||| 1).testBit 0 = true := by simp [Nat.testBit_or]
  rw [Nat.testBit_zero] at h
  exact of_decide_eq_true h

/-- The value `v` is the Thumb-mode offset for a symbol named `nm`:
some symbol of the ELF has that name and `v` is its address minus the
code-section start (truncated subtraction, as `saturating_sub`) with bit
0 forced on. -/
def resolvedEntry (elf : ElfFile) (codeStart v : Nat) (nm : String) : Prop :=
  ∃ s ∈ elf.symbols, s.name = nm ∧ v = (s.addr - codeStart) ||| 1

lemma alookup_efs_aux (codeStart : Nat) (nm : String) (v : Nat) :
    ∀ (syms : List ElfSymbol) (m : List (String × Nat)),
      alookup (syms.foldl (efsStep codeStart) m) nm = some v →
        alookup m nm = some v ∨
          ∃ s ∈ syms, s.name = nm ∧ v = (s.addr - codeStart) ||| 1 := by
  intro syms
  induction syms with
  | nil => intro m h; exact Or.inl h
  | cons s rest ih =>
    intro m h
    rw [List.foldl_cons] at h
    rcases ih _ h with h' | ⟨s', hs', hnm, hv⟩
    · unfold efsStep at h'
      by_cases hw : isWantedSymbol s.name
      · rw [if_pos hw] at h'
        unfold alookup at h'
        by_cases hn : s.name = nm
        · rw [if_pos hn] at h'
          exact Or.inr ⟨s, List.mem_cons_self _ _, hn,
            (Option.some_injective _ h').symm⟩
        · rw [if_neg hn] at h'
          exact Or.inl h'
      · rw [if_neg hw] at h'
        exact Or.inl h'
    · exact Or.inr ⟨s', List.mem_cons_of_mem _ hs', hnm, hv⟩

lemma alookup_extract_function_symbols (elf : ElfFile) (codeStart : Nat)
    (nm : String) (v : Nat)
    (h : alookup (extract_function_symbols elf codeStart) nm = some v) :
    resolvedEntry elf codeStart v nm := by
  rcases alookup_efs_aux codeStart nm v elf.symbols [] h with h' | hs
  · simp [alookup] at h'
  · exact hs

lemma alookup_extract_function_symbols_none (elf : ElfFile) (codeStart : Nat)
    (nm : String) (habs : ∀ s ∈ elf.symbols, s.name ≠ nm) :
    alookup (extract_function_symbols elf codeStart) nm = none := by
  cases hv : alookup (extract_function_symbols elf codeStart) nm with
  | none => rfl
  | some v =>
    obtain ⟨s, hs, hnm, -⟩ :=
      alookup_extract_function_symbols elf codeStart nm v hv
    exact absurd hnm (habs s hs)

/-- Content of the success half of C1, factored so that the failure half
can use it. -/
lemma extract_flash_algorithm_ok_props (flm : FlmFile)
    (flash_start flash_size : Nat) (algo : FlashAlgorithm)
    (h : extract_flash_algorithm_from_flm flm flash_start flash_size =
      .ok algo) :
    ∃ blob codeStart dataOff,
      extract_algorithm_blob flm.elf = .ok (blob, codeStart, dataOff) ∧
      algo.pc_program_page % 2 = 1 ∧ algo.pc_erase_sector % 2 = 1 ∧
      resolvedEntry flm.elf codeStart algo.pc_program_page "ProgramPage" ∧
      resolvedEntry flm.elf codeStart algo.pc_erase_sector "EraseSector" ∧
      (∀ v, algo.pc_init = some v → resolvedEntry flm.elf codeStart v "Init") ∧
      (∀ v, algo.pc_uninit = some v →
        resolvedEntry flm.elf codeStart v "UnInit") ∧
      (∀ v, algo.pc_erase_all = some v →
        resolvedEntry flm.elf codeStart v "EraseChip") := by
  unfold extract_flash_algorithm_from_flm at h
  cases hb : extract_algorithm_blob flm.elf with
  | error e => rw [hb] at h; exact absurd h (by simp)
  | ok t =>
    obtain ⟨blob, codeStart, dataOff⟩ := t
    rw [hb] at h
    simp only at h
    cases hpp : alookup (extract_function_symbols flm.elf codeStart)
        "ProgramPage" with
    | none => rw [hpp] at h; exact absurd h (by simp)
    | some pp =>
      rw [hpp] at h
      cases hes : alookup (extract_function_symbols flm.elf codeStart)
          "EraseSector" with
      | none => rw [hes] at h; exact absurd h (by simp)
      | some es =>
        rw [hes] at h
        simp only [Except.ok.injEq] at h
        subst h
        have rpp := alookup_extract_function_symbols _ _ _ _ hpp
        have res := alookup_extract_function_symbols _ _ _ _ hes
        have hodd1 : pp % 2 = 1 := by
          obtain ⟨sp, -, -, hvp⟩ := rpp
          rw [hvp]; exact lor_one_mod_two _
        have hodd2 : es % 2 = 1 := by
          obtain ⟨se, -, -, hve⟩ := res
          rw [hve]; exact lor_one_mod_two _
        exact ⟨blob, codeStart, dataOff, rfl, hodd1, hodd2, rpp, res,
          fun v hv => alookup_extract_function_symbols _ _ _ _ hv,
          fun v hv => alookup_extract_function_symbols _ _ _ _ hv,
          fun v hv => alookup_extract_function_symbols _ _ _ _ hv⟩

/-- C1.  Every `FlashAlgorithm` successfully extracted from an FLM ELF has
each resolved entry point equal to `(symbol_addr − code_section_start) ||| 1`
(the subtraction truncated at zero, matching `saturating_sub`), so in
particular `pc_program_page` and `pc_erase_sector` are odd; and when the
ELF has no `ProgramPage` symbol, or no `EraseSector` symbol, the
extraction returns an error. -/
theorem c1_flm_entry_points (flm : FlmFile) (flash_start flash_size : Nat) :
    (∀ algo,
      extract_flash_algorithm_from_flm flm flash_start flash_size = .ok algo →
        ∃ blob codeStart dataOff,
          extract_algorithm_blob flm.elf = .ok (blob, codeStart, dataOff) ∧
          algo.pc_program_page % 2 = 1 ∧ algo.pc_erase_sector % 2 = 1 ∧
          resolvedEntry flm.elf codeStart algo.pc_program_page "ProgramPage" ∧
          resolvedEntry flm.elf codeStart algo.pc_erase_sector "EraseSector" ∧
          (∀ v, algo.pc_init = some v →
            resolvedEntry flm.elf codeStart v "Init") ∧
          (∀ v, algo.pc_uninit = some v →
            resolvedEntry flm.elf codeStart v "UnInit") ∧
          (∀ v, algo.pc_erase_all = some v →
            resolvedEntry flm.elf codeStart v "EraseChip")) ∧
    (((∀ s ∈ flm.elf.symbols, s.name ≠ "ProgramPage") ∨
        (∀ s ∈ flm.elf.symbols, s.name ≠ "EraseSector")) →
      ∃ e,
        extract_flash_algorithm_from_flm flm flash_start flash_size =
          .error e) := by
  refine ⟨fun algo h => extract_flash_algorithm_ok_props _ _ _ _ h, ?_⟩
  intro habs
  cases hx : extract_flash_algorithm_from_flm flm flash_start flash_size with
  | error e => exact ⟨e, rfl⟩
  | ok algo =>
    exfalso
    obtain ⟨b, cs, d, -, -, -, rpp, res, -⟩ :=
      extract_flash_algorithm_ok_props _ _ _ _ hx
    rcases habs with habs | habs
    · obtain ⟨s, hs, hnm, -⟩ := rpp
      exact absurd hnm (habs s hs)
    · obtain ⟨s, hs, hnm, -⟩ := res
      exact absurd hnm (habs s hs)

/-- Concrete FLM ELF used as a witness input: a `PrgCode` section at
address 0 and the mandatory symbols. -/
def elf1 : ElfFile :=
  { sections := [⟨"PrgCode", 0, SectionKind.text, [0, 181, 0, 189], 4⟩]
    symbols := [⟨"Init", 0, 2⟩, ⟨"ProgramPage", 32, 2⟩, ⟨"EraseSector", 64, 2⟩] }

def flm1 : FlmFile := ⟨"STM32F4XX_1MB.FLM", elf1⟩

def flashAlgorithmDefault : FlashAlgorithm :=
  { name := "", description := "", dflt := false, instructions := []
    pc_init := none, pc_uninit := none, pc_program_page := 0
    pc_erase_sector := 0, pc_erase_all := none, data_section_offset := 0
    flash_properties := ⟨⟨0, 0⟩, 0, 0, 0, 0, []⟩ }

/-- The algorithm extracted from `flm1`. -/
def algo1 : FlashAlgorithm :=
  match extract_flash_algorithm_from_flm flm1 134217728 4096 with
  | .ok a => a
  | .error _ => flashAlgorithmDefault

/-- An FLM ELF with no `ProgramPage` symbol. -/
def flmNoPP : FlmFile :=
  ⟨"NOPP.FLM",
    { sections := [⟨"PrgCode", 0, SectionKind.text, [0, 181], 2⟩]
      symbols := [⟨"EraseSector", 64, 2⟩] }⟩

/-- Witness for C1 at a concrete FLM. -/
theorem c1_flm_entry_points_witness :
    extract_flash_algorithm_from_flm flm1 134217728 4096 = .ok algo1 ∧
    algo1.pc_program_page % 2 = 1 ∧ algo1.pc_erase_sector % 2 = 1 ∧
    (extract_flash_algorithm_from_flm flmNoPP 0 4096).isOk = false := by
  have hok : extract_flash_algorithm_from_flm flm1 134217728 4096 =
      .ok algo1 := by rfl
  obtain ⟨b, cs, d, -, h1, h2, -⟩ :=
    (c1_flm_entry_points flm1 134217728 4096).1 algo1 hok
  obtain ⟨e, he⟩ :=
    (c1_flm_entry_points flmNoPP 0 4096).2 (Or.inl (by decide))
  exact ⟨hok, h1, h2, by rw [he]; rfl⟩

/-! ## `pack/target_gen.rs`: device model and FLM matching -/

structure ProcessorInfo where
  core : String
  fpu : Bool
  mpu : Bool
deriving DecidableEq, Repr

structure MemoryInfo where
  ram_start : Nat
  ram_size : Nat
  flash_start : Nat
  flash_size : Nat
deriving DecidableEq, Repr

structure DeviceDefinition where
  name : String
  processor : ProcessorInfo
  memory : MemoryInfo
  flash_algorithm : Option String
deriving DecidableEq, Repr

/-- Uppercased file name of an FLM with every trailing `.FLM` removed, as
computed by `match_flm_for_device`
(`file_name.to_uppercase().trim_end_matches(".FLM")`). -/
def flmStemUpper (f : FlmFile) : String :=
  strTrimEndMatches (strUpper f.fileName) ".FLM"

/-- Size patterns of matching strategy 2: `_<N>MB`/`<N>MB` when the flash
size is at least one MiB, else `_<N>KB`/`<N>KB`. -/
def sizePatterns (flash_size : Nat) : List String :=
  let kb := flash_size / 1024
  let mb := flash_size / (1024 * 1024)
  if 1 ≤ mb then ["_" ++ toString mb ++ "MB", toString mb ++ "MB"]
  else ["_" ++ toString kb ++ "KB", toString kb ++ "KB"]

/-- Vendor series used by strategies 2 and 4: first 6 characters for
GD32/STM32 device names, else first 4. -/
def seriesOfDevice (deviceUpper : String) : String :=
  if strStartsWith deviceUpper "GD32" || strStartsWith deviceUpper "STM32" then
    ⟨deviceUpper.data.take 6⟩
  else ⟨deviceUpper.data.take 4⟩

/-- `match_flm_for_device` of `flash_algo.rs`: the four matching
strategies in priority order (exact stem, series + size pattern, 8-char
series stem, series with no size suffix). -/
def match_flm_for_device (flm_files : List FlmFile) (device_name : String)
    (flash_size : Nat) : Option FlmFile :=
  let deviceUpper := strUpper device_name
  match flm_files.find? (fun f => flmStemUpper f == deviceUpper) with
  | some f => some f
  | none =>
    let patterns := sizePatterns flash_size
    let series := seriesOfDevice deviceUpper
    match
      flm_files.find? (fun f =>
        strContains (strUpper f.fileName) series &&
          patterns.any (fun p => strContains (strUpper f.fileName) (strUpper p)))
    with
    | some f => some f
    | none =>
      let deviceSeries :=
        if 9 ≤ deviceUpper.length then (⟨deviceUpper.data.take 8⟩ : String)
        else deviceUpper
      match flm_files.find? (fun f => flmStemUpper f == deviceSeries) with
      | some f => some f
      | none =>
        flm_files.find? (fun f =>
          strContains (strUpper f.fileName) series &&
            !(strContains (strUpper f.fileName) "KB" ||
              strContains (strUpper f.fileName) "MB"))

/-! ## `generate_probe_rs_yaml_with_algo`: algorithm collection (C2)

The first pass of `generate_probe_rs_yaml_with_algo` (lines 590–642)
collects the de-duplicated flash algorithms (keyed by
`<name>_<flash_kB>`) and records one `load_address` per key; the YAML
emission then writes `load_address + 0x20` for each collected algorithm
(lines 678–682). -/

structure CollectedAlgo where
  algo : FlashAlgorithm
  load_address : Nat
deriving DecidableEq, Repr

structure CollectState where
  algoMap : List (String × CollectedAlgo)
  deviceAlgoMap : List (String × String)
deriving DecidableEq, Repr

/-- Matching and extraction for one device (lines 611–622): a device with
flash gets its matched FLM extracted; the algorithm is renamed to
`<name>_<flash_kB>`.  Returns the renamed algorithm keyed by its new
name, or `none` when the device has no flash, no FLM matches, or
extraction fails. -/
def resolveAlgo (flm_files : List FlmFile) (device : DeviceDefinition) :
    Option (String × FlashAlgorithm) :=
  if 0 < device.memory.flash_size then
    match match_flm_for_device flm_files device.name device.memory.flash_size
    with
    | some flm =>
      match
        extract_flash_algorithm_from_flm flm device.memory.flash_start
          device.memory.flash_size
      with
      | .ok algo =>
        let key := algo.name ++ "_" ++ toString (device.memory.flash_size / 1024)
        some (key, { algo with name := key })
      | .error _ => none
    | none => none
  else none

/-- Loop body of the collection pass (lines 595–642): the device→key map
always records the key; the algorithm map only records the first device
that produced a given key, keeping that device's `ram_start` as the
algorithm's `load_address`. -/
def collectStep (flm_files : List FlmFile) (st : CollectState)
    (device : DeviceDefinition) : CollectState :=
  match resolveAlgo flm_files device with
  | none => st
  | some (key, algo') =>
    let st1 :=
      { st with deviceAlgoMap := (device.name, key) :: st.deviceAlgoMap }
    if (alookup st.algoMap key).isNone then
      { st1 with
        algoMap := (key, ⟨algo', device.memory.ram_start⟩) :: st1.algoMap }
    else st1

/-- The collection pass over all devices. -/
def collectAlgos (flm_files : List FlmFile)
    (devices : List DeviceDefinition) : CollectState :=
  devices.foldl (collectStep flm_files) ⟨[], []⟩

/-- The `load_address:` value the YAML emission writes for the algorithm
keyed `key`: the collected `load_address` plus `0x20` (lines 678–682). -/
def emittedLoadAddress (flm_files : List FlmFile)
    (devices : List DeviceDefinition) (key : String) : Option Nat :=
  (alookup (collectAlgos flm_files devices).algoMap key).map
    (fun c => c.load_address + 0x20)

/-! ## Claim C2: per-variant load addresses -/

lemma collectStep_lookup_some (flm_files : List FlmFile) (st : CollectState)
    (d : DeviceDefinition) (key : String) (c : CollectedAlgo)
    (h : alookup st.algoMap key = some c) :
    alookup (collectStep flm_files st d).algoMap key = some c := by
  unfold collectStep
  cases hr : resolveAlgo flm_files d with
  | none => exact h
  | some kv =>
    obtain ⟨k, algo'⟩ := kv
    simp only
    by_cases hn : (alookup st.algoMap k).isNone
    · rw [if_pos hn]
      have hne : k ≠ key := by
        intro e
        subst e
        rw [h] at hn
        simp at hn
      unfold alookup
      rw [if_neg hne]
      exact h
    · rw [if_neg hn]
      exact h

lemma collect_foldl_lookup_some (flm_files : List FlmFile)
    (ds : List DeviceDefinition) (st : CollectState) (key : String)
    (c : CollectedAlgo) (h : alookup st.algoMap key = some c) :
    alookup (ds.foldl (collectStep flm_files) st).algoMap key = some c := by
  induction ds generalizing st with
  | nil => exact h
  | cons d rest ih =>
    rw [List.foldl_cons]
    exact ih _ (collectStep_lookup_some flm_files st d key c h)

lemma collect_foldl_lookup_first (flm_files : List FlmFile)
    (ds : List DeviceDefinition) (st : CollectState) (key : String)
    (c : CollectedAlgo) (h0 : alookup st.algoMap key = none)
    (h : alookup (ds.foldl (collectStep flm_files) st).algoMap key = some c) :
    ∃ d,
      ds.find? (fun d => (resolveAlgo flm_files d).map Prod.fst == some key) =
        some d ∧
      c.load_address = d.memory.ram_start := by
  induction ds generalizing st with
  | nil =>
    rw [List.foldl_nil] at h
    rw [h0] at h
    exact absurd h (by simp)
  | cons d rest ih =>
    rw [List.foldl_cons] at h
    cases hr : resolveAlgo flm_files d with
    | none =>
      have hstep : collectStep flm_files st d = st := by
        unfold collectStep
        rw [hr]
      rw [hstep] at h
      obtain ⟨d', hfind, hload⟩ := ih st h0 h
      refine ⟨d', ?_, hload⟩
      rw [List.find?_cons_of_neg, hfind]
      simp [hr]
    | some kv =>
      obtain ⟨k, algo'⟩ := kv
      by_cases hk : k = key
      · subst hk
        have hstep :
            alookup (collectStep flm_files st d).algoMap k =
              some ⟨algo', d.memory.ram_start⟩ := by
          unfold collectStep
          rw [hr]
          simp only
          rw [if_pos (by rw [h0]; rfl)]
          unfold alookup
          rw [if_pos rfl]
        have hfin :=
          collect_foldl_lookup_some flm_files rest _ k _ hstep
        rw [hfin] at h
        have hc : c = ⟨algo', d.memory.ram_start⟩ :=
          (Option.some_injective _ h).symm
        refine ⟨d, ?_, by rw [hc]⟩
        rw [List.find?_cons_of_pos]
        simp [hr]
      · have hstep :
            alookup (collectStep flm_files st d).algoMap key = none := by
          unfold collectStep
          rw [hr]
          simp only
          by_cases hn : (alookup st.algoMap k).isNone
          · rw [if_pos hn]
            unfold alookup
            rw [if_neg hk]
            exact h0
          · rw [if_neg hn]
            exact h0
        obtain ⟨d', hfind, hload⟩ := ih _ hstep h
        refine ⟨d', ?_, hload⟩
        rw [List.find?_cons_of_neg, hfind]
        simp [hr, hk]

/-- C2 (amended).  The `load_address` the YAML emission writes for an
algorithm key is `0x20` plus the `ram_start` of the FIRST device (in
device order) whose matching and extraction produced that key — not, in
general, the RAM start of every variant that references the key. -/
theorem c2_load_address_amended (flm_files : List FlmFile)
    (devices : List DeviceDefinition) (key : String) (la : Nat)
    (h : emittedLoadAddress flm_files devices key = some la) :
    ∃ d,
      devices.find?
          (fun d => (resolveAlgo flm_files d).map Prod.fst == some key) =
        some d ∧
      la = d.memory.ram_start + 0x20 := by
  unfold emittedLoadAddress at h
  cases hc : alookup (collectAlgos flm_files devices).algoMap key with
  | none => rw [hc] at h; exact absurd h (by simp)
  | some c =>
    rw [hc] at h
    simp only [Option.map_some'] at h
    obtain ⟨d, hfind, hload⟩ :=
      collect_foldl_lookup_first flm_files devices ⟨[], []⟩ key c rfl hc
    have hla : c.load_address + 32 = la := Option.some_injective _ h
    exact ⟨d, hfind, by rw [← hla, hload]⟩

/-- First device of the C2 scenario: 1 MiB flash, RAM at `0x20000000`. -/
def devA : DeviceDefinition :=
  { name := "STM32F405RG", processor := ⟨"Cortex-M4", true, true⟩
    memory := ⟨0x20000000, 0x20000, 0x08000000, 0x100000⟩
    flash_algorithm := none }

/-- Second device of the C2 scenario: same flash size (hence the same
algorithm key), RAM at `0x10000000`. -/
def devB : DeviceDefinition :=
  { name := "STM32F407VG", processor := ⟨"Cortex-M4", true, true⟩
    memory := ⟨0x10000000, 0x10000, 0x08000000, 0x100000⟩
    flash_algorithm := none }

/-- C2 counterexample.  Variant `devB` references algorithm key
`STM32F4XX_1MB_1024`, but the `load_address` emitted for that algorithm is
`devA`'s RAM start plus `0x20` (`0x20000020`), not `devB`'s RAM start plus
`0x20` (`0x10000020`). -/
theorem c2_counterexample :
    alookup (collectAlgos [flm1] [devA, devB]).deviceAlgoMap "STM32F407VG" =
      some "STM32F4XX_1MB_1024" ∧
    emittedLoadAddress [flm1] [devA, devB] "STM32F4XX_1MB_1024" =
      some 0x20000020 ∧
    devB.memory.ram_start + 0x20 = 0x10000020 ∧
    (0x20000020 : Nat) ≠ 0x10000020 :=
  ⟨by decide, by decide, by decide, by decide⟩

/-- Witness for the amended C2 at a concrete input. -/
theorem c2_load_address_amended_witness :
    emittedLoadAddress [flm1] [devA] "STM32F4XX_1MB_1024" = some 0x20000020 ∧
    [devA].find?
        (fun d => (resolveAlgo [flm1] d).map Prod.fst ==
          some "STM32F4XX_1MB_1024") = some devA ∧
    (0x20000020 : Nat) = devA.memory.ram_start + 0x20 := by
  have h : emittedLoadAddress [flm1] [devA] "STM32F4XX_1MB_1024" =
      some 0x20000020 := by decide
  obtain ⟨d, hfind, hla⟩ :=
    c2_load_address_amended [flm1] [devA] "STM32F4XX_1MB_1024" 0x20000020 h
  have hda : [devA].find?
      (fun d => (resolveAlgo [flm1] d).map Prod.fst ==
        some "STM32F4XX_1MB_1024") = some devA := by decide
  have hd : d = devA := by
    rw [hda] at hfind
    exact (Option.some_injective _ hfind).symm
  subst hd
  exact ⟨h, hfind, hla⟩

/-! ## `pack/scan_report.rs` and `generate_scan_report` (C9) -/

inductive DeviceStatus where
  | ok
  | warning
  | error
deriving DecidableEq, Repr

structure AlgorithmInfo where
  name : String
  flm_file : String
  page_size : Nat
  sector_count : Nat
deriving DecidableEq, Repr

structure DeviceReport where
  name : String
  core : String
  flash_start : Nat
  flash_size : Nat
  ram_start : Nat
  ram_size : Nat
  algorithm : Option AlgorithmInfo
  status : DeviceStatus
deriving DecidableEq, Repr

structure AlgorithmStat where
  algorithm_name : String
  device_count : Nat
  devices : List String
deriving DecidableEq, Repr

/-- `PackScanReport` of `scan_report.rs`.  `scan_time` (a wall-clock
string) is omitted. -/
structure PackScanReport where
  pack_name : String
  total_devices : Nat
  devices_with_algo : Nat
  devices_without_algo : Nat
  devices : List DeviceReport
  algorithm_stats : List AlgorithmStat
deriving DecidableEq, Repr

/-- `PackScanReport::new`. -/
def PackScanReport.new (pack_name : String) : PackScanReport :=
  ⟨pack_name, 0, 0, 0, [], []⟩

/-- `PackScanReport::add_device`: the total always increments; the
with-algo counter increments when the device has an algorithm, otherwise
the without-algo counter increments ONLY when the device has flash. -/
def PackScanReport.add_device (r : PackScanReport) (device : DeviceReport) :
    PackScanReport :=
  { r with
    total_devices := r.total_devices + 1
    devices_with_algo :=
      if device.algorithm.isSome then r.devices_with_algo + 1
      else r.devices_with_algo
    devices_without_algo :=
      if device.algorithm.isSome then r.devices_without_algo
      else if 0 < device.flash_size then r.devices_without_algo + 1
      else r.devices_without_algo
    devices := r.devices ++ [device] }

/-- Append a device name into the per-algorithm grouping. -/
def statInsert (k v : String) :
    List (String × List String) → List (String × List String)
  | [] => [(k, [v])]
  | (k', vs) :: rest =>
    if k' = k then (k', vs ++ [v]) :: rest else (k', vs) :: statInsert k v rest

/-- Grouping pass of `calculate_algorithm_stats`; the source iterates a
`HashMap` in unspecified order, modelled here as first-seen order. -/
def statGroups (devices : List DeviceReport) : List (String × List String) :=
  devices.foldl
    (fun m d =>
      match d.algorithm with
      | some a => statInsert a.name d.name m
      | none => m)
    []

/-- Stable insertion by descending device count (models the source's
stable `sort_by` on `device_count` descending). -/
def statSortInsert (a : AlgorithmStat) :
    List AlgorithmStat → List AlgorithmStat
  | [] => [a]
  | b :: rest =>
    if b.device_count < a.device_count then a :: b :: rest
    else b :: statSortInsert a rest

def statSort : List AlgorithmStat → List AlgorithmStat
  | [] => []
  | a :: rest => statSortInsert a (statSort rest)

/-- `PackScanReport::calculate_algorithm_stats`: only the
`algorithm_stats` field changes. -/
def PackScanReport.calculate_algorithm_stats (r : PackScanReport) :
    PackScanReport :=
  { r with
    algorithm_stats :=
      statSort
        ((statGroups r.devices).map fun g =>
          ⟨g.1, g.2.length, g.2⟩) }

/-- Per-device report construction of `generate_scan_report`
(`target_gen.rs` lines 815–864): a device with flash is matched against
the pack's FLM files and extraction is attempted; failures downgrade the
status to `warning`; a device without flash stays `ok` with no
algorithm. -/
def buildDeviceReport (flm_files : List FlmFile)
    (device : DeviceDefinition) : DeviceReport :=
  let base : DeviceReport :=
    { name := device.name
      core := device.processor.core
      flash_start := device.memory.flash_start
      flash_size := device.memory.flash_size
      ram_start := device.memory.ram_start
      ram_size := device.memory.ram_size
      algorithm := none
      status := DeviceStatus.ok }
  if 0 < device.memory.flash_size then
    match match_flm_for_device flm_files device.name device.memory.flash_size
    with
    | some flm =>
      match
        extract_flash_algorithm_from_flm flm device.memory.flash_start
          device.memory.flash_size
      with
      | .ok algo =>
        { base with
          algorithm :=
            some
              ⟨algo.name, flm.fileName, algo.flash_properties.page_size,
                algo.flash_properties.sectors.length⟩
          status := DeviceStatus.ok }
      | .error _ => { base with status := DeviceStatus.warning }
    | none => { base with status := DeviceStatus.warning }
  else base

/-- `generate_scan_report` (`target_gen.rs` lines 801–871).
`find_flm_files` fails on a pack without FLM files, modelled by the
emptiness check; otherwise every device's report is added and the
algorithm statistics are computed. -/
def generate_scan_report (devices : List DeviceDefinition)
    (pack_name : String) (flm_files : List FlmFile) :
    Except String PackScanReport :=
  if flm_files.isEmpty then .error "Pack 中未找到 FLM 文件"
  else
    .ok
      (((devices.map (buildDeviceReport flm_files)).foldl
          PackScanReport.add_device (PackScanReport.new pack_name)).calculate_algorithm_stats)

/-! ## Claim C9: scan-report counters -/

/-- The devices `add_device` counts into one of the two buckets: those
with an algorithm or with flash. -/
def countedDevice (dr : DeviceReport) : Bool :=
  dr.algorithm.isSome || decide (0 < dr.flash_size)

lemma addDevice_fold (drs : List DeviceReport) (r : PackScanReport) :
    (drs.foldl PackScanReport.add_device r).total_devices =
        r.total_devices + drs.length ∧
    (drs.foldl PackScanReport.add_device r).devices = r.devices ++ drs ∧
    (drs.foldl PackScanReport.add_device r).devices_with_algo +
        (drs.foldl PackScanReport.add_device r).devices_without_algo =
      r.devices_with_algo + r.devices_without_algo + drs.countP countedDevice := by
  induction drs generalizing r with
  | nil => simp
  | cons d rest ih =>
    rw [List.foldl_cons]
    obtain ⟨h1, h2, h3⟩ := ih (r.add_device d)
    refine ⟨?_, ?_, ?_⟩
    · rw [h1]
      unfold PackScanReport.add_device
      simp only [List.length_cons]
      omega
    · rw [h2]
      unfold PackScanReport.add_device
      simp
    · rw [h3]
      unfold PackScanReport.add_device
      simp only [List.countP_cons, countedDevice]
      by_cases ha : d.algorithm.isSome
      · simp [ha]
        omega
      · by_cases hf : 0 < d.flash_size
        · simp [ha, hf]
          omega
        · simp [ha, hf]

/-- C9 (amended).  For every successfully generated scan report,
`total_devices` is the number of devices, and `devices_with_algo +
devices_without_algo` counts exactly the devices that have an algorithm
or a non-zero flash size — so the sum equals `total_devices` only when no
device is flash-less and algorithm-less. -/
theorem c9_scan_report_amended (devices : List DeviceDefinition)
    (pack_name : String) (flm_files : List FlmFile) (rep : PackScanReport)
    (h : generate_scan_report devices pack_name flm_files = .ok rep) :
    rep.total_devices = devices.length ∧
    rep.devices_with_algo + rep.devices_without_algo =
      rep.devices.countP countedDevice := by
  unfold generate_scan_report at h
  by_cases he : flm_files.isEmpty
  · rw [if_pos he] at h
    exact absurd h (by simp)
  · rw [if_neg he] at h
    have hrep := (Option.some_injective _ (by simpa using h)).symm
    obtain ⟨h1, h2, h3⟩ :=
      addDevice_fold (devices.map (buildDeviceReport flm_files))
        (PackScanReport.new pack_name)
    subst hrep
    unfold PackScanReport.calculate_algorithm_stats
    simp only
    constructor
    · rw [h1]
      simp [PackScanReport.new]
    · rw [h3, h2]
      simp [PackScanReport.new]

/-- A RAM-only device: no flash, so no algorithm is matched. -/
def devRam : DeviceDefinition :=
  { name := "RAMONLY1", processor := ⟨"Cortex-M4", false, false⟩
    memory := ⟨0x20000000, 0x10000, 0, 0⟩
    flash_algorithm := none }

def reportDefault : PackScanReport := ⟨"", 0, 0, 0, [], []⟩

/-- The report generated for a pack with one flash device and one
RAM-only device. -/
def report9 : PackScanReport :=
  match generate_scan_report [devA, devRam] "PackP" [flm1] with
  | .ok r => r
  | .error _ => reportDefault

/-- C9 counterexample.  A pack of two devices, one of which has no flash
and no algorithm, yields `devices_with_algo + devices_without_algo = 1`
while `total_devices = 2`: the claimed identity fails. -/
theorem c9_counterexample :
    (generate_scan_report [devA, devRam] "PackP" [flm1]).isOk = true ∧
    report9.total_devices = 2 ∧
    report9.devices_with_algo = 1 ∧
    report9.devices_without_algo = 0 ∧
    report9.devices_with_algo + report9.devices_without_algo ≠
      report9.total_devices :=
  ⟨by decide, by decide, by decide, by decide, by decide⟩

/-- The report generated for the single-device pack of the C9 witness. -/
def report9w : PackScanReport :=
  match generate_scan_report [devA] "PackP" [flm1] with
  | .ok r => r
  | .error _ => reportDefault

/-- Witness for the amended C9 at a concrete input. -/
theorem c9_scan_report_amended_witness :
    generate_scan_report [devA] "PackP" [flm1] = .ok report9w ∧
    report9w.total_devices = 1 ∧
    report9w.devices_with_algo + report9w.devices_without_algo =
      report9w.devices.countP countedDevice := by
  have h : generate_scan_report [devA] "PackP" [flm1] = .ok report9w := by rfl
  obtain ⟨h1, h2⟩ :=
    c9_scan_report_amended [devA] "PackP" [flm1] report9w h
  exact ⟨h, h1, h2⟩

/-! ## `parse_devices_from_pdsc` (`target_gen.rs` lines 70–548)

The quick-xml event stream is modelled as a list of XML events; the
parser is the fold of the source's event loop over that list. -/

inductive XmlEvent where
  | Start (name : String) (attrs : List (String × String))
  | Empty (name : String) (attrs : List (String × String))
  | End (name : String)
  | Text (content : String)
deriving DecidableEq, Repr

/-- ASCII whitespace (the characters Rust `str::trim` removes in the
numeric attributes handled here). -/
def isWs (c : Char) : Bool :=
  c = ' ' || c = '\t' || c = '\n' || c = '\r'

def strTrim (s : String) : String :=
  ⟨((s.data.dropWhile isWs).reverse.dropWhile isWs).reverse⟩

def hexDigitVal (c : Char) : Option Nat :=
  if '0' ≤ c ∧ c ≤ '9' then some (c.toNat - 48)
  else if 'a' ≤ c ∧ c ≤ 'f' then some (c.toNat - 87)
  else if 'A' ≤ c ∧ c ≤ 'F' then some (c.toNat - 55)
  else none

def decDigitVal (c : Char) : Option Nat :=
  if '0' ≤ c ∧ c ≤ '9' then some (c.toNat - 48) else none

def digitsVal (base : Nat) (dv : Char → Option Nat) :
    List Char → Nat → Option Nat
  | [], acc => some acc
  | c :: rest, acc =>
    match dv c with
    | some d => digitsVal base dv rest (acc * base + d)
    | none => none

/-- Digit-string parse in a radix, rejecting the empty string and invalid
digits, tolerating one leading `+`, as `u64::from_str_radix` does. -/
def parseRadix (base : Nat) (dv : Char → Option Nat) (cs : List Char) :
    Option Nat :=
  match cs with
  | [] => none
  | '+' :: rest => if rest = [] then none else digitsVal base dv rest 0
  | _ => digitsVal base dv cs 0

/-- `parse_hex_or_dec` of `target_gen.rs`: trim, then `0x`/`0X`-prefixed
hex or decimal. -/
def parse_hex_or_dec (s : String) : Option Nat :=
  let t := strTrim s
  if strStartsWith t "0x" || strStartsWith t "0X" then
    parseRadix 16 hexDigitVal (t.data.drop 2)
  else parseRadix 10 decDigitVal t.data

/-- Parser state of `parse_devices_from_pdsc`: the emitted devices, the
level flags, and the three stacked inheritance slots. -/
structure PdscState where
  devices : List DeviceDefinition
  in_devices : Bool
  in_family : Bool
  in_subfamily : Bool
  in_device : Bool
  family_processor : Option ProcessorInfo
  family_memory : Option MemoryInfo
  family_algorithm : Option String
  subfamily_processor : Option ProcessorInfo
  subfamily_memory : Option MemoryInfo
  subfamily_algorithm : Option String
  current_device : Option DeviceDefinition
  current_processor : Option ProcessorInfo
  subfamily_device_count : Nat
deriving DecidableEq, Repr

def initialPdscState : PdscState :=
  ⟨[], false, false, false, false, none, none, none, none, none, none,
    none, none, 0⟩

/-- Attribute fold of the `<processor>` handler (`Dcore`, `Dfpu`,
`Dmpu`; last occurrence wins). -/
def parseProcessorAttrs (attrs : List (String × String)) : ProcessorInfo :=
  attrs.foldl
    (fun p a =>
      if a.1 = "Dcore" then { p with core := a.2 }
      else if a.1 = "Dfpu" then
        { p with
          fpu := a.2 == "1" || strLower a.2 == "true" ||
            strLower a.2 == "sp_fpu" }
      else if a.1 = "Dmpu" then
        { p with mpu := a.2 == "1" || strLower a.2 == "true" }
      else p)
    ⟨"", false, false⟩

structure MemAttrs where
  id : String
  name_attr : String
  start : Nat
  size : Nat
  is_default : Bool
deriving DecidableEq, Repr

/-- Attribute fold of the `<memory>` handler. -/
def parseMemoryAttrs (attrs : List (String × String)) : MemAttrs :=
  attrs.foldl
    (fun m a =>
      if a.1 = "id" then { m with id := a.2 }
      else if a.1 = "name" then { m with name_attr := a.2 }
      else if a.1 = "start" then
        { m with start := (parse_hex_or_dec a.2).getD 0 }
      else if a.1 = "size" then
        { m with size := (parse_hex_or_dec a.2).getD 0 }
      else if a.1 = "default" then
        { m with is_default := a.2 == "1" || strLower a.2 == "true" }
      else m)
    ⟨"", "", 0, 0, false⟩

/-- Memory classification and slot update (`target_gen.rs` lines
262–305): id-or-name matched case-insensitively; flash prefers default or
larger regions; RAM prefers default or main-SRAM (`≥ 0x20000000`)
regions. -/
def applyMemoryToInfo (mem : MemoryInfo) (ma : MemAttrs) : MemoryInfo :=
  let memId := if ma.id ≠ "" then ma.id else ma.name_attr
  let up := strUpper memId
  if strContains up "IROM" || strContains up "FLASH" || strContains up "ROM"
  then
    if mem.flash_size = 0 ∨ ma.is_default ∨ mem.flash_size < ma.size then
      { mem with flash_start := ma.start, flash_size := ma.size }
    else mem
  else if strContains up "IRAM" || strContains up "RAM" ||
      strContains up "SRAM" then
    if mem.ram_size = 0 ∨ ma.is_default ∨
        (0x20000000 ≤ ma.start ∧ mem.ram_start < 0x20000000) then
      { mem with ram_start := ma.start, ram_size := ma.size }
    else mem
  else mem

/-- `<processor>` event: folded into the innermost active slot. -/
def handleProcessorEvent (st : PdscState)
    (attrs : List (String × String)) : PdscState :=
  if st.in_devices then
    let p := parseProcessorAttrs attrs
    if st.in_device then { st with current_processor := some p }
    else if st.in_subfamily then { st with subfamily_processor := some p }
    else if st.in_family then { st with family_processor := some p }
    else st
  else st

/-- `<memory>` event: folded into the innermost active slot (initialising
the slot to zeros when absent). -/
def handleMemoryEvent (st : PdscState)
    (attrs : List (String × String)) : PdscState :=
  if st.in_devices then
    let ma := parseMemoryAttrs attrs
    if st.in_device then
      match st.current_device with
      | some dev =>
        { st with
          current_device :=
            some { dev with memory := applyMemoryToInfo dev.memory ma } }
      | none => st
    else if st.in_subfamily then
      { st with
        subfamily_memory :=
          some (applyMemoryToInfo (st.subfamily_memory.getD ⟨0, 0, 0, 0⟩) ma) }
    else if st.in_family then
      { st with
        family_memory :=
          some (applyMemoryToInfo (st.family_memory.getD ⟨0, 0, 0, 0⟩) ma) }
    else st
  else st

/-- `<algorithm>` event: the first `name` attribute is stored in the
innermost active slot. -/
def handleAlgorithmEvent (st : PdscState)
    (attrs : List (String × String)) : PdscState :=
  if st.in_devices then
    match attrs.find? (fun a => a.1 == "name") with
    | some a =>
      if st.in_device then
        match st.current_device with
        | some dev =>
          { st with
            current_device := some { dev with flash_algorithm := some a.2 } }
        | none => st
      else if st.in_subfamily then { st with subfamily_algorithm := some a.2 }
      else if st.in_family then { st with family_algorithm := some a.2 }
      else st
    | none => st
  else st

/-- `<device>` start: a named device is opened with the configuration
inherited from the subfamily slots, falling back to the family slots. -/
def handleDeviceStart (st : PdscState)
    (attrs : List (String × String)) : PdscState :=
  if st.in_devices then
    let st1 := { st with in_device := true }
    let name := attrs.foldl (fun n a => if a.1 = "Dname" then a.2 else n) ""
    if name ≠ "" then
      let st2 :=
        if st1.in_subfamily then
          { st1 with subfamily_device_count := st1.subfamily_device_count + 1 }
        else st1
      { st2 with
        current_device :=
          some
            { name := name
              processor :=
                (st2.subfamily_processor.orElse
                  fun _ => st2.family_processor).getD ⟨"", false, false⟩
              memory :=
                (st2.subfamily_memory.orElse
                  fun _ => st2.family_memory).getD ⟨0, 0, 0, 0⟩
              flash_algorithm :=
                st2.subfamily_algorithm.orElse
                  fun _ => st2.family_algorithm } }
    else st1
  else st

/-- `</device>`: the pending device (with a device-level processor
override when present) is emitted; the device slots are cleared. -/
def handleDeviceEnd (st : PdscState) : PdscState :=
  { st with
    in_device := false
    current_device := none
    current_processor := none
    devices :=
      match st.current_device with
      | some dev =>
        st.devices ++
          [match st.current_processor with
            | some p => { dev with processor := p }
            | none => dev]
      | none => st.devices }

/-- One step of the event loop of `parse_devices_from_pdsc`. -/
def pdscStep (st : PdscState) : XmlEvent → PdscState
  | .Start n attrs =>
    if n = "devices" then { st with in_devices := true }
    else if n = "family" then
      if st.in_devices then
        { st with
          in_family := true, family_processor := none, family_memory := none
          family_algorithm := none }
      else st
    else if n = "subFamily" then
      if st.in_family then
        { st with
          in_subfamily := true, subfamily_processor := none
          subfamily_memory := none, subfamily_algorithm := none }
      else st
    else if n = "device" then handleDeviceStart st attrs
    else if n = "processor" then handleProcessorEvent st attrs
    else if n = "memory" then handleMemoryEvent st attrs
    else if n = "algorithm" then handleAlgorithmEvent st attrs
    else st
  | .Empty n attrs =>
    if n = "processor" then handleProcessorEvent st attrs
    else if n = "memory" then handleMemoryEvent st attrs
    else if n = "algorithm" then handleAlgorithmEvent st attrs
    else st
  | .End n =>
    if n = "devices" then { st with in_devices := false }
    else if n = "family" then
      { st with
        in_family := false, family_processor := none, family_memory := none
        family_algorithm := none }
    else if n = "subFamily" then
      { st with
        in_subfamily := false, subfamily_processor := none
        subfamily_memory := none, subfamily_algorithm := none
        subfamily_device_count := 0 }
    else if n = "device" then handleDeviceEnd st
    else st
  | .Text _ => st

/-- `parse_devices_from_pdsc` over an event list. -/
def parse_devices_from_pdsc_events (events : List XmlEvent) :
    List DeviceDefinition :=
  (events.foldl pdscStep initialPdscState).devices

/-! ## Claim C8: three sibling subFamilies -/

/-- One `<subFamily>` block with two named devices. -/
def subFamilyBlock (sf d1 d2 : String) : List XmlEvent :=
  [.Start "subFamily" [("DsubFamily", sf)],
   .Start "device" [("Dname", d1)], .End "device",
   .Start "device" [("Dname", d2)], .End "device",
   .End "subFamily"]

/-- A `<devices>` section with one family carrying a processor and a
memory map, and three sibling subFamilies of two devices each. -/
def pdscEvents8 : List XmlEvent :=
  [.Start "devices" [],
   .Start "family" [("Dfamily", "FAM")],
   .Empty "processor" [("Dcore", "Cortex-M4"), ("Dfpu", "1"), ("Dmpu", "1")],
   .Empty "memory"
     [("id", "IROM1"), ("start", "0x08000000"), ("size", "0x100000"),
       ("default", "1")],
   .Empty "memory" [("id", "IRAM1"), ("start", "0x20000000"), ("size", "0x20000")]] ++
  subFamilyBlock "S1" "D1" "D2" ++ subFamilyBlock "S2" "D3" "D4" ++
  subFamilyBlock "S3" "D5" "D6" ++ [.End "family", .End "devices"]

/-- C8.  A PDSC whose `<devices>` section has one family with three
sibling subFamilies of two devices each parses to exactly six devices, in
document order; and the step function clears exactly the subfamily slots
on every `</subFamily>` (preserving the family slots) and the family
slots on `</family>`. -/
theorem c8_pdsc_three_subfamilies :
    (parse_devices_from_pdsc_events pdscEvents8).map DeviceDefinition.name =
      ["D1", "D2", "D3", "D4", "D5", "D6"] ∧
    (parse_devices_from_pdsc_events pdscEvents8).length = 6 ∧
    (∀ st : PdscState,
      (pdscStep st (.End "subFamily")).subfamily_processor = none ∧
      (pdscStep st (.End "subFamily")).subfamily_memory = none ∧
      (pdscStep st (.End "subFamily")).subfamily_algorithm = none ∧
      (pdscStep st (.End "subFamily")).family_processor = st.family_processor ∧
      (pdscStep st (.End "subFamily")).family_memory = st.family_memory ∧
      (pdscStep st (.End "subFamily")).family_algorithm = st.family_algorithm ∧
      (pdscStep st (.End "subFamily")).devices = st.devices ∧
      (pdscStep st (.End "family")).family_processor = none ∧
      (pdscStep st (.End "family")).family_memory = none ∧
      (pdscStep st (.End "family")).family_algorithm = none) := by
  refine ⟨by decide, by decide, ?_⟩
  intro st
  refine ⟨?_, ?_, ?_, ?_, ?_, ?_, ?_, ?_, ?_, ?_⟩ <;> simp [pdscStep]

/-- Witness for C8's universally quantified clearing clause at a concrete
state. -/
theorem c8_pdsc_three_subfamilies_witness :
    (pdscStep initialPdscState (.End "subFamily")).subfamily_processor =
      none ∧
    (pdscStep initialPdscState (.End "family")).family_memory = none :=
  ⟨(c8_pdsc_three_subfamilies.2.2 initialPdscState).1,
    (c8_pdsc_three_subfamilies.2.2 initialPdscState).2.2.2.2.2.2.2.2.1⟩

/-! ## `PackManager::import_pack` (`manager.rs` lines 110–173) (C7)

The archive is modelled as `none` when `ZipArchive::new` fails (an
unreadable archive) and otherwise as its entry list; each entry carries
its name and, for the PDSC, its textual content.  `parse_pdsc` (a
~200-line XML walk whose internals no claim touches) is passed in as a
function argument.  The on-disk pack store is modelled by the list of
already-imported pack names; extraction into
`<packs-dir>/<name>` overwrites silently, so the returned store is the
input store with the new name added when absent. -/

structure ZipEntry where
  name : String
  content : String
deriving DecidableEq, Repr

structure PackInfo where
  name : String
  vendor : String
  version : String
  description : String
  device_count : Nat
deriving DecidableEq, Repr

/-- `import_pack`: open the archive (distinct error when unreadable),
read the first `*.pdsc` entry (distinct error when there is none or it is
empty), parse it, create the pack directory and extract.  NO check
against the existing pack names is performed anywhere on this path. -/
def import_pack (parsePdsc : String → Except String PackInfo) :
    Option (List ZipEntry) → List String →
      Except String (PackInfo × List String)
  | none, _ => .error "无法打开Pack文件"
  | some entries, existingPacks =>
    let pdscContent :=
      ((entries.find? fun e => strEndsWith e.name ".pdsc").map
        ZipEntry.content).getD ""
    if pdscContent = "" then .error "Pack文件中未找到.pdsc文件"
    else
      match parsePdsc pdscContent with
      | .error e => .error e
      | .ok info =>
        .ok
          (info,
            if existingPacks.contains info.name then existingPacks
            else info.name :: existingPacks)

/-! ## Claim C7: import failure modes -/

/-- Trivial stand-in for `parse_pdsc` used at the concrete inputs: a
fixed successful parse (the real parser only fails on malformed XML). -/
def parseConst (info : PackInfo) : String → Except String PackInfo :=
  fun _ => .ok info

def packInfoA : PackInfo := ⟨"PackA", "VendorV", "1.0.0", "", 5⟩

/-- An archive holding a PDSC entry and an FLM entry. -/
def archiveA : List ZipEntry :=
  [⟨"PackA.pdsc", "<package/>"⟩, ⟨"CMSIS/Flash/A.FLM", "(elf)"⟩]

/-- C7 counterexample.  Importing an archive whose pack name collides
with an already-imported pack does NOT fail: the import succeeds and
returns the pack info, so no distinct `PackError` exists for name
collisions. -/
theorem c7_counterexample :
    import_pack (parseConst packInfoA) (some archiveA) ["PackA"] =
      .ok (packInfoA, ["PackA"]) ∧
    (import_pack (parseConst packInfoA) (some archiveA) ["PackA"]).isOk =
      true :=
  ⟨rfl, rfl⟩

/-- C7 (amended).  An unreadable archive and an archive without a PDSC
each fail with their own distinct `PackError`; an import whose archive is
readable and holds a parsable PDSC succeeds and returns the pack record
regardless of any name collision with an already-imported pack (the
extraction silently reuses the existing directory). -/
theorem c7_import_failures_amended
    (parsePdsc : String → Except String PackInfo)
    (entries : List ZipEntry) (existingPacks : List String)
    (info : PackInfo) (pdsc : ZipEntry)
    (hfound : entries.find? (fun e => strEndsWith e.name ".pdsc") = some pdsc)
    (hnonempty : pdsc.content ≠ "")
    (hparse : parsePdsc pdsc.content = .ok info) :
    import_pack parsePdsc none existingPacks = .error "无法打开Pack文件" ∧
    ((∀ e ∈ entries, strEndsWith e.name ".pdsc" = false) →
      import_pack parsePdsc (some entries) existingPacks =
        .error "Pack文件中未找到.pdsc文件") ∧
    ("无法打开Pack文件" : String) ≠ "Pack文件中未找到.pdsc文件" ∧
    import_pack parsePdsc (some entries) existingPacks =
      .ok
        (info,
          if existingPacks.contains info.name then existingPacks
          else info.name :: existingPacks) := by
  refine ⟨rfl, ?_, by decide, ?_⟩
  · intro habs
    simp only [import_pack]
    rw [List.find?_eq_none.mpr]
    · rfl
    · intro e he
      simp [habs e he]
  · simp only [import_pack]
    rw [hfound]
    simp only [Option.map_some', Option.getD_some]
    rw [if_neg hnonempty, hparse]

/-- Witness for the amended C7 at concrete inputs. -/
theorem c7_import_failures_amended_witness :
    archiveA.find? (fun e => strEndsWith e.name ".pdsc") = some ⟨"PackA.pdsc", "<package/>"⟩ ∧
    (⟨"PackA.pdsc", "<package/>"⟩ : ZipEntry).content ≠ "" ∧
    import_pack (parseConst packInfoA) none [] = .error "无法打开Pack文件" ∧
    import_pack (parseConst packInfoA) (some archiveA) [] =
      .ok (packInfoA, ["PackA"]) := by
  have h :=
    c7_import_failures_amended (parseConst packInfoA) archiveA []
      packInfoA ⟨"PackA.pdsc", "<package/>"⟩ (by decide) (by decide) rfl
  exact ⟨by decide, by decide, h.1, rfl⟩

/-! ## `verify_firmware` (`commands/flash.rs` lines 434–528) (C3) -/

/-- `probe_rs::config::MemoryRegion` shapes consulted by the verify
command. -/
inductive MemoryRegionM where
  | ram (start stop : Nat)
  | nvm (start stop : Nat)
  | generic (start stop : Nat)
deriving DecidableEq, Repr

def nvmStart : MemoryRegionM → Option Nat
  | .nvm s _ => some s
  | _ => none

/-- The flash base used by verify: the first `Nvm` region's start, with
the STM32 default `0x08000000` when there is none (lines 464–472). -/
def primaryFlashStart (memoryMap : List MemoryRegionM) : Nat :=
  (memoryMap.findSome? nvmStart).getD 0x08000000

/-- One emitted `flash-progress` event of the verify command.  `address`
is the chunk address that the source formats into the message of the
`error`-phase event (`校验失败：地址 0x… 处数据不匹配`); it is `none` for
the other phases. -/
structure VerifyEvent where
  phase : String
  progress : ℚ
  address : Option Nat
deriving DecidableEq, Repr

/-- The verify loop (lines 481–516): 4096-byte chunks, target bytes read
at `flashStart + verified`, byte-compared against the file slice; the
first mismatching chunk emits an `error` event carrying the chunk address
and stops with `false`; progress events fire every 64 KiB and at the
end.  Fuel-recursive; the wrapper passes `file.length`, enough since each
iteration consumes at least one byte. -/
def verifyLoop (flash : Nat → Nat) (file : List Nat) (flashStart : Nat) :
    Nat → Nat → Bool × List VerifyEvent
  | 0, _ => (true, [])
  | fuel + 1, verified =>
    if verified < file.length then
      let total := file.length
      let chunkLen := min 4096 (total - verified)
      let currentAddr := flashStart + verified
      let flashChunk :=
        (List.range chunkLen).map fun j => flash (currentAddr + j)
      let fileChunk := (file.drop verified).take chunkLen
      if flashChunk = fileChunk then
        let verified' := verified + chunkLen
        let rest := verifyLoop flash file flashStart fuel verified'
        if verified' % 65536 < 4096 ∨ total ≤ verified' then
          (rest.1, ⟨"verify", (verified' : ℚ) / total, none⟩ :: rest.2)
        else rest
      else (false, [⟨"error", (verified : ℚ) / total, some currentAddr⟩])
    else (true, [])

/-- `verify_firmware`: initial `verify` event, the chunk loop from the
primary Nvm start, and a final `complete` event on success.  The target
flash is modelled as a function from addresses to bytes; the
session/file-existence error paths are upstream of the modelled logic. -/
def verify_firmware (memoryMap : List MemoryRegionM) (flash : Nat → Nat)
    (file : List Nat) : Bool × List VerifyEvent :=
  let flashStart := primaryFlashStart memoryMap
  let r := verifyLoop flash file flashStart file.length 0
  if r.1 then
    (true, ⟨"verify", 0, none⟩ :: r.2 ++ [⟨"complete", 1, none⟩])
  else (false, ⟨"verify", 0, none⟩ :: r.2)

/-! ## Claim C3: verify mismatch address -/

lemma verifyLoop_chunk_eq (flash : Nat → Nat) (file : List Nat) (fs : Nat)
    (verified : Nat) (hlt : verified + 4096 ≤ file.length)
    (hagree : ∀ j, j < verified + 4096 → verified ≤ j →
      flash (fs + j) = file.getD j 0) :
    (List.range (min 4096 (file.length - verified))).map
        (fun j => flash (fs + verified + j)) =
      (file.drop verified).take (min 4096 (file.length - verified)) := by
  have hmin : min 4096 (file.length - verified) = 4096 := by omega
  rw [hmin]
  apply List.ext_getElem
  · simp
    omega
  · intro j h1 h2
    simp only [List.getElem_map, List.getElem_range]
    rw [List.getElem_take, List.getElem_drop]
    have hb : verified + j < file.length := by
      simp at h1
      omega
    have := hagree (verified + j) (by simp at h1; omega) (by omega)
    rw [List.getD_eq_getElem file 0 hb] at this
    rw [← this]
    ring_nf

lemma verifyLoop_succ (flash : Nat → Nat) (file : List Nat)
    (fs fuel verified : Nat) :
    verifyLoop flash file fs (fuel + 1) verified =
      if verified < file.length then
        if (List.range (min 4096 (file.length - verified))).map
              (fun j => flash (fs + verified + j)) =
            (file.drop verified).take (min 4096 (file.length - verified))
        then
          if (verified + min 4096 (file.length - verified)) % 65536 < 4096 ∨
              file.length ≤ verified + min 4096 (file.length - verified) then
            ((verifyLoop flash file fs fuel
                (verified + min 4096 (file.length - verified))).1,
              ⟨"verify",
                ((verified + min 4096 (file.length - verified) : Nat) : ℚ) /
                  file.length, none⟩ ::
                (verifyLoop flash file fs fuel
                  (verified + min 4096 (file.length - verified))).2)
          else
            verifyLoop flash file fs fuel
              (verified + min 4096 (file.length - verified))
        else
          (false,
            [⟨"error", ((verified : Nat) : ℚ) / file.length,
              some (fs + verified)⟩])
      else (true, []) := rfl

lemma verifyLoop_mismatch (flash : Nat → Nat) (file : List Nat) (fs i : Nat)
    (hi : i < file.length)
    (hagree : ∀ j, j < i → flash (fs + j) = file.getD j 0)
    (hdiff : flash (fs + i) ≠ file.getD i 0) :
    ∀ (n fuel c : Nat), i / 4096 = c + n → n + 1 ≤ fuel →
      ∃ pre,
        verifyLoop flash file fs fuel (4096 * c) =
          (false,
            pre ++
              [⟨"error", ((4096 * (i / 4096) : Nat) : ℚ) / file.length,
                some (fs + 4096 * (i / 4096))⟩]) ∧
        ∀ e ∈ pre, e.phase = "verify" := by
  have hdm := Nat.div_add_mod i 4096
  have hmod : i % 4096 < 4096 := Nat.mod_lt _ (by omega)
  intro n
  induction n with
  | zero =>
    intro fuel c hc hfuel
    obtain ⟨f, rfl⟩ : ∃ f, fuel = f + 1 := ⟨fuel - 1, by omega⟩
    have hcle : 4096 * c ≤ i := by omega
    have hclt : i < 4096 * (c + 1) := by omega
    have hv : 4096 * c < file.length := by omega
    rw [verifyLoop_succ, if_pos hv]
    have hne :
        (List.range (min 4096 (file.length - 4096 * c))).map
            (fun j => flash (fs + 4096 * c + j)) ≠
          (file.drop (4096 * c)).take
            (min 4096 (file.length - 4096 * c)) := by
      intro heq
      have hp : i - 4096 * c < min 4096 (file.length - 4096 * c) := by
        omega
      have hb1 : i - 4096 * c <
          ((List.range (min 4096 (file.length - 4096 * c))).map
            (fun j => flash (fs + 4096 * c + j))).length := by
        simpa using hp
      have hb1t : i - 4096 * c <
          ((file.drop (4096 * c)).take
            (min 4096 (file.length - 4096 * c))).length := by
        rw [← heq]; exact hb1
      have hval :
          ((List.range (min 4096 (file.length - 4096 * c))).map
            (fun j => flash (fs + 4096 * c + j)))[i - 4096 * c] =
          ((file.drop (4096 * c)).take
            (min 4096 (file.length - 4096 * c)))[i - 4096 * c] := by
        simp [heq]
      simp only [List.getElem_map, List.getElem_range] at hval
      rw [List.getElem_take, List.getElem_drop] at hval
      have h1 : fs + 4096 * c + (i - 4096 * c) = fs + i := by omega
      have h2 : 4096 * c + (i - 4096 * c) = i := by omega
      rw [h1] at hval
      have hb2 : i < file.length := hi
      apply hdiff
      rw [hval, List.getD_eq_getElem file 0 hb2]
      congr 1
    rw [if_neg hne]
    refine ⟨[], ?_, by simp⟩
    have hc0 : c = i / 4096 := by omega
    rw [hc0]
    simp
  | succ n ih =>
    intro fuel c hc hfuel
    obtain ⟨f, rfl⟩ : ∃ f, fuel = f + 1 := ⟨fuel - 1, by omega⟩
    have hcc : 4096 * (c + 1) ≤ i := by
      have : c + 1 ≤ i / 4096 := by omega
      calc 4096 * (c + 1) ≤ 4096 * (i / 4096) := by omega
        _ ≤ i := by omega
    have hv : 4096 * c < file.length := by omega
    have hlen : 4096 * c + 4096 ≤ file.length := by omega
    rw [verifyLoop_succ, if_pos hv]
    have heq := verifyLoop_chunk_eq flash file fs (4096 * c) hlen
      (fun j hj1 hj2 => hagree j (by omega))
    rw [if_pos heq]
    have hmin : min 4096 (file.length - 4096 * c) = 4096 := by omega
    rw [hmin]
    have hstep : 4096 * c + 4096 = 4096 * (c + 1) := by ring
    rw [hstep]
    obtain ⟨pre', hrest, hpre'⟩ := ih f (c + 1) (by omega) (by omega)
    rw [hrest]
    by_cases hcond :
        (4096 * (c + 1)) % 65536 < 4096 ∨ file.length ≤ 4096 * (c + 1)
    · rw [if_pos hcond]
      refine ⟨⟨"verify", ((4096 * (c + 1) : Nat) : ℚ) / file.length, none⟩ ::
        pre', by simp, ?_⟩
      intro e he
      rcases List.mem_cons.mp he with h | h
      · rw [h]
      · exact hpre' e h
    · rw [if_neg hcond]
      exact ⟨pre', rfl, hpre'⟩

/-- C3 (amended).  When target flash and file agree before byte index `i`
and differ at `i`, verify returns `false`; exactly one `error` event is
emitted, as the last event, and the address it reports is the START of
the 4 KiB chunk containing the mismatching byte —
`flashStart + 4096 * (i / 4096)` — not the mismatching byte's own
address; every earlier event has phase `verify`.  The read base
`primaryFlashStart` is the first Nvm region's start. -/
theorem c3_verify_amended (memoryMap : List MemoryRegionM)
    (flash : Nat → Nat) (file : List Nat) (i : Nat) (hi : i < file.length)
    (hagree : ∀ j, j < i →
      flash (primaryFlashStart memoryMap + j) = file.getD j 0)
    (hdiff : flash (primaryFlashStart memoryMap + i) ≠ file.getD i 0) :
    ∃ pre,
      verify_firmware memoryMap flash file =
        (false,
          pre ++
            [⟨"error", ((4096 * (i / 4096) : Nat) : ℚ) / file.length,
              some (primaryFlashStart memoryMap + 4096 * (i / 4096))⟩]) ∧
      (∀ e ∈ pre, e.phase = "verify") := by
  have hdiv := Nat.div_le_self i 4096
  obtain ⟨pre, hloop, hpre⟩ :=
    verifyLoop_mismatch flash file (primaryFlashStart memoryMap) i hi hagree
      hdiff (i / 4096) file.length 0 (by omega) (by omega)
  simp only [Nat.mul_zero] at hloop
  refine ⟨⟨"verify", 0, none⟩ :: pre, ?_, ?_⟩
  · simp only [verify_firmware]
    rw [hloop]
    simp
  · intro e he
    rcases List.mem_cons.mp he with h | h
    · rw [h]
    · exact hpre e h

def mmC3 : List MemoryRegionM := [.nvm 0x08000000 0x08010000]

/-- Target flash contents of the C3 scenario: every byte `7` except the
byte at `0x08000001`, which is `9`. -/
def flashC3 : Nat → Nat := fun a => if a = 0x08000001 then 9 else 7

/-- Image of the C3 scenario: two bytes `7` — it differs from flash in
exactly the byte at index 1 (target address `0x08000001`). -/
def fileC3 : List Nat := [7, 7]

/-- C3 counterexample.  The image differs from flash in exactly one byte,
at target address `0x08000001`; verify returns `false` and emits the
`error` event, but the address the event reports is `0x08000000` (the
chunk start), not `0x08000001` (the modified byte's address). -/
theorem c3_counterexample :
    (verify_firmware mmC3 flashC3 fileC3).1 = false ∧
    (verify_firmware mmC3 flashC3 fileC3).2.map VerifyEvent.phase =
      ["verify", "error"] ∧
    (verify_firmware mmC3 flashC3 fileC3).2.map VerifyEvent.address =
      [none, some 0x08000000] ∧
    flashC3 (0x08000000 + 1) ≠ fileC3.getD 1 0 ∧
    flashC3 0x08000000 = fileC3.getD 0 0 ∧
    (0x08000000 : Nat) ≠ 0x08000000 + 1 :=
  ⟨by decide, by decide, by decide, by decide, by decide, by decide⟩

/-- Witness for the amended C3 at the concrete scenario. -/
theorem c3_verify_amended_witness :
    (1 : Nat) < fileC3.length ∧
    flashC3 (primaryFlashStart mmC3 + 1) ≠ fileC3.getD 1 0 ∧
    (verify_firmware mmC3 flashC3 fileC3).1 = false ∧
    ((verify_firmware mmC3 flashC3 fileC3).2.map
      VerifyEvent.address).getLast? = some (some 0x08000000) := by
  have hi : (1 : Nat) < fileC3.length := by decide
  have hagree : ∀ j, j < 1 →
      flashC3 (primaryFlashStart mmC3 + j) = fileC3.getD j 0 := by
    intro j hj
    have hj0 : j = 0 := by omega
    subst hj0
    decide
  have hdiff : flashC3 (primaryFlashStart mmC3 + 1) ≠ fileC3.getD 1 0 := by
    decide
  obtain ⟨pre, hrun, hpre⟩ :=
    c3_verify_amended mmC3 flashC3 fileC3 1 hi hagree hdiff
  refine ⟨hi, hdiff, ?_, ?_⟩
  · rw [hrun]
  · rw [hrun]
    simp
    decide

/-! ## `flash_firmware` progress accounting (`commands/flash.rs`) (C5)

The probe-rs loader callbacks are modelled as a list of `LoaderEvent`s;
the `FlashProgress` closure of `flash_firmware` (lines 166–255) is a
state machine over `ProgressState` emitting one `flash-progress` event
(phase and fraction) per callback.  After a successful download the
command emits `finishing` at 0.95, optionally `reset` at 0.98 (and stops
with an error when the reset fails, emitting nothing further), and
finally `complete` at 1.0.  When the download itself fails the command
returns the error having emitted NO event beyond the callbacks' own. -/

inductive ProgressOperationM where
  | fill
  | erase
  | program
  | verify
deriving DecidableEq, Repr

inductive LoaderEvent where
  | flashLayoutReady
  | addProgressBar (op : ProgressOperationM) (total : Option Nat)
  | started (op : ProgressOperationM)
  | progressed (op : ProgressOperationM) (size : Nat)
  | failed (op : ProgressOperationM)
  | finished (op : ProgressOperationM)
  | diagnosticMessage (msg : String)
deriving DecidableEq, Repr

structure ProgressStateM where
  erase_total : Nat
  erase_current : Nat
  program_total : Nat
  program_current : Nat
deriving DecidableEq, Repr

/-- `ProgressState::calculate_progress` (lines 31–41), over `ℚ` instead
of `f32`: programming dominates (30–90%), else erase (0–30%), else 0. -/
def calculate_progress (s : ProgressStateM) : ℚ :=
  if 0 < s.program_total then
    3 / 10 + (s.program_current : ℚ) / (s.program_total : ℚ) * (6 / 10)
  else if 0 < s.erase_total then
    (s.erase_current : ℚ) / (s.erase_total : ℚ) * (3 / 10)
  else 0

def phaseOf : ProgressOperationM → String
  | .fill => "fill"
  | .erase => "erase"
  | .program => "program"
  | .verify => "verify"

/-- One step of the progress callback (lines 169–243): the state update
and the phase string of the emitted event. -/
def callbackStep (s : ProgressStateM) : LoaderEvent → ProgressStateM × String
  | .flashLayoutReady => (s, "init")
  | .addProgressBar op total =>
    match op with
    | .erase => ({ s with erase_total := total.getD 0 }, "init")
    | .program => ({ s with program_total := total.getD 0 }, "init")
    | .fill => (s, "init")
    | .verify => (s, "init")
  | .started op =>
    match op with
    | .fill => (s, "fill")
    | .erase => ({ s with erase_current := 0 }, "erase")
    | .program => ({ s with program_current := 0 }, "program")
    | .verify => (s, "verify")
  | .progressed op size =>
    match op with
    | .fill => (s, "fill")
    | .erase =>
      ({ s with
          erase_current := s.erase_current + size
          erase_total := max (s.erase_current + size) s.erase_total },
        "erase")
    | .program =>
      ({ s with program_current := s.program_current + size }, "program")
    | .verify => (s, "verify")
  | .failed op => (s, phaseOf op)
  | .finished op => (s, phaseOf op)
  | .diagnosticMessage _ => (s, "info")

/-- The `flash-progress` events emitted by the callback over an event
list: each event's phase with the fraction computed AFTER folding the
event into the state (line 245). -/
def callbackTrace (s : ProgressStateM) : List LoaderEvent → List (String × ℚ)
  | [] => []
  | e :: rest =>
    ((callbackStep s e).2, calculate_progress (callbackStep s e).1) ::
      callbackTrace (callbackStep s e).1 rest

/-- The state after folding an event list. -/
def callbackFold (s : ProgressStateM) : List LoaderEvent → ProgressStateM
  | [] => s
  | e :: rest => callbackFold (callbackStep s e).1 rest

/-- The full `flash-progress` trace of one `flash_firmware` call
(lines 260–304).  `downloadOk` is whether `download_file_with_options`
succeeded; `resetOk` whether the post-programming core reset succeeded.
On download failure the command returns early: no further event.  On
success: `finishing` at 0.95; when `reset_after` is set, `reset` at 0.98
and, only if the reset succeeds, `complete` at 1.0; without `reset_after`,
`complete` directly. -/
def flash_firmware_trace (events : List LoaderEvent)
    (downloadOk resetAfter resetOk : Bool) : List (String × ℚ) :=
  callbackTrace ⟨0, 0, 0, 0⟩ events ++
    if downloadOk then
      ("finishing", 19 / 20) ::
        (if resetAfter then
          ("reset", 49 / 50) :: (if resetOk then [("complete", 1)] else [])
        else [("complete", 1)])
    else []

/-- The loader event order probe-rs produces for one flash operation:
layout, both progress bars, then the erase phase, then the program
phase. -/
def canonicalLoaderEvents (et pt : Nat) (es ps : List Nat) :
    List LoaderEvent :=
  [.flashLayoutReady, .addProgressBar .erase (some et),
    .addProgressBar .program (some pt), .started .erase] ++
  es.map (.progressed .erase) ++
  [.finished .erase, .started .program] ++
  ps.map (.progressed .program) ++
  [.finished .program]

/-! ## Claim C5: progress trace lemmas -/

lemma callbackTrace_append (l1 l2 : List LoaderEvent) :
    ∀ s, callbackTrace s (l1 ++ l2) =
      callbackTrace s l1 ++ callbackTrace (callbackFold s l1) l2 := by
  induction l1 with
  | nil => intro s; simp [callbackTrace, callbackFold]
  | cons e rest ih =>
    intro s
    simp only [List.cons_append, callbackTrace, callbackFold, List.append_eq,
      ih]

/-- Prefix sums of a list starting from `c` (cumulative
`program_current`). -/
def accSums (c : Nat) : List Nat → List Nat
  | [] => []
  | p :: rest => (c + p) :: accSums (c + p) rest

lemma accSums_head_ge (c : Nat) (ps : List Nat) :
    ∀ h ∈ (accSums c ps).head?, c ≤ h := by
  cases ps with
  | nil => simp [accSums]
  | cons p rest => simp [accSums]

lemma accSums_chain (ps : List Nat) : ∀ c,
    List.Chain' (· ≤ ·) (accSums c ps) := by
  induction ps with
  | nil => intro c; simp [accSums]
  | cons p rest ih =>
    intro c
    rw [accSums, List.chain'_cons']
    exact ⟨accSums_head_ge _ _, ih _⟩

lemma accSums_le (ps : List Nat) : ∀ c, ∀ a ∈ accSums c ps,
    a ≤ c + ps.sum := by
  induction ps with
  | nil => intro c a ha; simp [accSums] at ha
  | cons p rest ih =>
    intro c a ha
    rw [accSums] at ha
    rcases List.mem_cons.mp ha with h | h
    · subst h
      simp only [List.sum_cons]
      omega
    · have := ih (c + p) a h
      simp only [List.sum_cons] at this ⊢
      omega

lemma accSums_getLast (ps : List Nat) : ∀ c, ps ≠ [] →
    (accSums c ps).getLast? = some (c + ps.sum) := by
  induction ps with
  | nil => intro c h; exact absurd rfl h
  | cons p rest ih =>
    intro c _
    cases hr : rest with
    | nil => subst hr; simp [accSums]
    | cons q qs =>
      subst hr
      have h1 : accSums c (p :: q :: qs) = (c + p) :: accSums (c + p) (q :: qs) := rfl
      have h2 : accSums (c + p) (q :: qs) =
          (c + p + q) :: accSums (c + p + q) qs := rfl
      rw [h1, h2, List.getLast?_cons_cons, ← h2, ih (c + p) (by simp)]
      simp only [List.sum_cons, Option.some.injEq]
      omega

lemma calculate_progress_program (s : ProgressStateM)
    (hpt : 0 < s.program_total) :
    calculate_progress s =
      3 / 10 + (s.program_current : ℚ) / (s.program_total : ℚ) * (6 / 10) := by
  unfold calculate_progress
  rw [if_pos hpt]

lemma calculate_progress_program_zero (s : ProgressStateM)
    (hpt : 0 < s.program_total) (hpc : s.program_current = 0) :
    calculate_progress s = 3 / 10 := by
  rw [calculate_progress_program s hpt, hpc]
  simp

/-- The erase-progress segment: with the program bar already set
(`program_total > 0`) and programming not started, every emitted value is
exactly `3/10` and the program fields are untouched. -/
lemma trace_erase_seg (es : List Nat) : ∀ s : ProgressStateM,
    0 < s.program_total → s.program_current = 0 →
      callbackTrace s (es.map (.progressed .erase)) =
          es.map (fun _ => ("erase", (3 : ℚ) / 10)) ∧
        (callbackFold s (es.map (.progressed .erase))).program_total =
          s.program_total ∧
        (callbackFold s (es.map (.progressed .erase))).program_current = 0 := by
  induction es with
  | nil =>
    intro s hpt hpc
    simp [callbackTrace, callbackFold, hpc]
  | cons e rest ih =>
    intro s hpt hpc
    have hstep :
        callbackStep s (.progressed .erase e) =
          ({ s with
              erase_current := s.erase_current + e
              erase_total := max (s.erase_current + e) s.erase_total },
            "erase") := rfl
    simp only [List.map_cons, callbackTrace, callbackFold, hstep]
    obtain ⟨h1, h2, h3⟩ :=
      ih
        { s with
          erase_current := s.erase_current + e
          erase_total := max (s.erase_current + e) s.erase_total }
        hpt hpc
    refine ⟨?_, h2, h3⟩
    rw [h1]
    have hz :=
      calculate_progress_program_zero
        { s with
          erase_current := s.erase_current + e
          erase_total := max (s.erase_current + e) s.erase_total }
        hpt hpc
    rw [hz]

/-- The program-progress segment: emitted values follow the prefix sums
of the reported sizes, scaled into 30–90 %. -/
lemma trace_program_seg (ps : List Nat) : ∀ s : ProgressStateM,
    0 < s.program_total →
      callbackTrace s (ps.map (.progressed .program)) =
          (accSums s.program_current ps).map
            (fun a : Nat =>
              ("program",
                3 / 10 + (a : ℚ) / (s.program_total : ℚ) * (6 / 10))) ∧
        (callbackFold s (ps.map (.progressed .program))).program_total =
          s.program_total ∧
        (callbackFold s (ps.map (.progressed .program))).program_current =
          s.program_current + ps.sum := by
  induction ps with
  | nil => intro s hpt; simp [callbackTrace, callbackFold, accSums]
  | cons p rest ih =>
    intro s hpt
    have hstep :
        callbackStep s (.progressed .program p) =
          ({ s with program_current := s.program_current + p }, "program") :=
      rfl
    simp only [List.map_cons, callbackTrace, callbackFold, hstep, accSums]
    obtain ⟨h1, h2, h3⟩ :=
      ih { s with program_current := s.program_current + p } hpt
    refine ⟨?_, h2, ?_⟩
    · rw [h1]
      simp only [List.map_cons]
      have hz :=
        calculate_progress_program
          { s with program_current := s.program_current + p } hpt
      simp only [hz]
    · simp only at h3
      rw [h3]
      simp only [List.sum_cons]
      ring

lemma callbackTrace_cons (s : ProgressStateM) (e : LoaderEvent)
    (l : List LoaderEvent) :
    callbackTrace s (e :: l) =
      ((callbackStep s e).2, calculate_progress (callbackStep s e).1) ::
        callbackTrace (callbackStep s e).1 l := rfl

/-- The full emitted value sequence of one canonical flash operation. -/
lemma canonical_trace_eq (et pt : Nat) (es ps : List Nat) (hpt : 0 < pt) :
    callbackTrace ⟨0, 0, 0, 0⟩ (canonicalLoaderEvents et pt es ps) =
      [("init", (0 : ℚ)), ("init", 0), ("init", (3 : ℚ) / 10),
          ("erase", (3 : ℚ) / 10)] ++
        es.map (fun _ => ("erase", (3 : ℚ) / 10)) ++
        [("erase", (3 : ℚ) / 10), ("program", (3 : ℚ) / 10)] ++
        (accSums 0 ps).map
          (fun a : Nat =>
            ("program", 3 / 10 + (a : ℚ) / (pt : ℚ) * (6 / 10))) ++
        [("program", 3 / 10 + (ps.sum : ℚ) / (pt : ℚ) * (6 / 10))] := by
  have h0 : calculate_progress ⟨0, 0, 0, 0⟩ = 0 := by
    simp [calculate_progress]
  have h1 : calculate_progress ⟨et, 0, 0, 0⟩ = 0 := by
    simp [calculate_progress]
  have h2 : calculate_progress ⟨et, 0, pt, 0⟩ = 3 / 10 :=
    calculate_progress_program_zero ⟨et, 0, pt, 0⟩ hpt rfl
  unfold canonicalLoaderEvents
  simp only [List.append_assoc, List.cons_append, List.nil_append]
  rw [callbackTrace_cons, callbackTrace_cons, callbackTrace_cons,
    callbackTrace_cons]
  have hstep1 : callbackStep ⟨0, 0, 0, 0⟩ .flashLayoutReady =
      (⟨0, 0, 0, 0⟩, "init") := rfl
  have hstep2 :
      callbackStep ⟨0, 0, 0, 0⟩ (.addProgressBar .erase (some et)) =
        (⟨et, 0, 0, 0⟩, "init") := rfl
  have hstep3 :
      callbackStep ⟨et, 0, 0, 0⟩ (.addProgressBar .program (some pt)) =
        (⟨et, 0, pt, 0⟩, "init") := rfl
  have hstep4 : callbackStep ⟨et, 0, pt, 0⟩ (.started .erase) =
      (⟨et, 0, pt, 0⟩, "erase") := rfl
  rw [hstep1]
  simp only
  rw [hstep2]
  simp only
  rw [hstep3]
  simp only
  rw [hstep4]
  simp only
  rw [h0, h1, h2]
  rw [callbackTrace_append (es.map (.progressed .erase))]
  obtain ⟨het, hef1, hef2⟩ := trace_erase_seg es ⟨et, 0, pt, 0⟩ hpt rfl
  rw [het]
  have hptF : 0 <
      (callbackFold ⟨et, 0, pt, 0⟩
        (es.map (.progressed .erase))).program_total := by
    rw [hef1]; exact hpt
  rw [callbackTrace_cons, callbackTrace_cons]
  have hstep5 : ∀ s : ProgressStateM,
      callbackStep s (.finished .erase) = (s, "erase") := fun s => rfl
  have hstep6 : ∀ s : ProgressStateM,
      callbackStep s (.started .program) =
        ({ s with program_current := 0 }, "program") := fun s => rfl
  rw [hstep5]
  simp only
  rw [hstep6]
  simp only
  set sF := callbackFold ⟨et, 0, pt, 0⟩ (es.map (.progressed .erase)) with hsF
  have hcF : calculate_progress sF = 3 / 10 :=
    calculate_progress_program_zero sF hptF hef2
  have hcF2 : calculate_progress { sF with program_current := 0 } = 3 / 10 :=
    calculate_progress_program_zero _ hptF rfl
  rw [hcF, hcF2]
  rw [callbackTrace_append (ps.map (.progressed .program))]
  obtain ⟨hpt2, hpf1, hpf2⟩ :=
    trace_program_seg ps { sF with program_current := 0 } hptF
  rw [hpt2]
  simp only
  have hptp : ({ sF with program_current := 0 } : ProgressStateM).program_total = pt := by
    show sF.program_total = pt
    rw [hef1]
  rw [hptp]
  rw [callbackTrace_cons]
  have hstep7 : ∀ s : ProgressStateM,
      callbackStep s (.finished .program) = (s, "program") := fun s => rfl
  rw [hstep7]
  simp only
  obtain ⟨-, hg1, hg2⟩ :=
    trace_program_seg ps
      { erase_total := sF.erase_total, erase_current := sF.erase_current
        program_total := pt, program_current := 0 } hpt
  have h01 : 0 <
      (callbackFold
        { erase_total := sF.erase_total, erase_current := sF.erase_current
          program_total := pt, program_current := 0 }
        (ps.map (.progressed .program))).program_total := by
    rw [hg1]; exact hpt
  rw [calculate_progress_program _ h01, hg2, hg1]
  simp [callbackTrace]

/-- The 30–90 % scaling of a cumulative byte count. -/
def gProg (pt : Nat) (a : Nat) : ℚ :=
  3 / 10 + (a : ℚ) / (pt : ℚ) * (6 / 10)

lemma gProg_mono (pt : Nat) (a b : Nat) (h : a ≤ b) :
    gProg pt a ≤ gProg pt b := by
  unfold gProg
  have hc : (a : ℚ) ≤ (b : ℚ) := by exact_mod_cast h
  gcongr

lemma replicate_cons_comm (n : Nat) (a : ℚ) (l : List ℚ) :
    List.replicate n a ++ a :: l = a :: (List.replicate n a ++ l) := by
  induction n with
  | zero => simp
  | succ m ih => rw [List.replicate_succ]; simp [ih]

lemma gProg_lower (pt a : Nat) : 3 / 10 ≤ gProg pt a := by
  unfold gProg
  have h1 : 0 ≤ (a : ℚ) / (pt : ℚ) * (6 / 10) := by positivity
  linarith

lemma gProg_upper (pt a : Nat) (hpt : 0 < pt) (ha : a ≤ pt) :
    gProg pt a ≤ 9 / 10 := by
  unfold gProg
  have h1 : (a : ℚ) / (pt : ℚ) ≤ 1 := by
    rw [div_le_one (by exact_mod_cast hpt)]
    exact_mod_cast ha
  nlinarith

lemma chain'_replicate_le (n : Nat) (a : ℚ) :
    List.Chain' (· ≤ ·) (List.replicate n a) := by
  induction n with
  | zero => simp
  | succ m ih =>
    rw [List.replicate_succ, List.chain'_cons']
    refine ⟨?_, ih⟩
    intro y hy
    cases m with
    | zero => simp at hy
    | succ k =>
      rw [List.replicate_succ] at hy
      simp at hy
      rw [hy]

lemma canonical_vals (et pt : Nat) (es ps : List Nat) (resetAfter : Bool)
    (hpt : 0 < pt) :
    (flash_firmware_trace (canonicalLoaderEvents et pt es ps) true
        resetAfter true).map Prod.snd =
      0 :: 0 ::
        (List.replicate (es.length + 4) ((3 : ℚ) / 10) ++
          ((accSums 0 ps).map (gProg pt) ++
            (gProg pt ps.sum :: (19 : ℚ) / 20 ::
              (if resetAfter then [(49 : ℚ) / 50, 1] else [1])))) := by
  unfold flash_firmware_trace
  rw [canonical_trace_eq et pt es ps hpt]
  cases resetAfter with
  | true =>
    simp only [if_true, List.map_append, List.map_cons, List.map_nil,
      List.map_map]
    simp [gProg, Function.comp_def, List.map_const']
    rw [show (4 : Nat) = 1 + 1 + 1 + 1 by rfl]
    simp only [← Nat.add_assoc, List.replicate_add, List.replicate_succ,
      List.replicate_zero]
    simp [List.append_assoc]
    rw [replicate_cons_comm, replicate_cons_comm]
    rfl
  | false =>
    simp only [if_false, List.map_append, List.map_cons, List.map_nil,
      List.map_map]
    simp [gProg, Function.comp_def, List.map_const']
    rw [show (4 : Nat) = 1 + 1 + 1 + 1 by rfl]
    simp only [← Nat.add_assoc, List.replicate_add, List.replicate_succ,
      List.replicate_zero]
    simp [List.append_assoc]
    rw [replicate_cons_comm, replicate_cons_comm]
    rfl

lemma mem_of_getLast' {α : Type} {l : List α} {x : α}
    (h : x ∈ l.getLast?) : x ∈ l := by
  obtain ⟨hne, hx⟩ := List.mem_getLast?_eq_getLast h
  rw [hx]
  exact List.getLast_mem hne

lemma c5_master (pt n : Nat) (ps : List Nat) (tv : List ℚ)
    (hpt : 0 < pt) (hsum : ps.sum ≤ pt)
    (htv : List.Chain' (· ≤ ·) ((19 : ℚ) / 20 :: tv))
    (htv2 : ∀ q ∈ tv, 0 ≤ q ∧ q ≤ 1) :
    List.Chain' (· ≤ ·)
      (0 :: 0 ::
        (List.replicate (n + 4) ((3 : ℚ) / 10) ++
          ((accSums 0 ps).map (gProg pt) ++
            (gProg pt ps.sum :: (19 : ℚ) / 20 :: tv)))) ∧
    ∀ q ∈
      (0 : ℚ) :: 0 ::
        (List.replicate (n + 4) ((3 : ℚ) / 10) ++
          ((accSums 0 ps).map (gProg pt) ++
            (gProg pt ps.sum :: (19 : ℚ) / 20 :: tv))),
      0 ≤ q ∧ q ≤ 1 := by
  have hsum0 : ∀ a ∈ accSums 0 ps, a ≤ pt := by
    intro a ha
    have := accSums_le ps 0 a ha
    omega
  have hend : gProg pt ps.sum ≤ 19 / 20 := by
    have h9 : gProg pt ps.sum ≤ 9 / 10 := gProg_upper pt ps.sum hpt hsum
    linarith
  have hheadM : ∀ y ∈
      ((accSums 0 ps).map (gProg pt) ++
        (gProg pt ps.sum :: (19 : ℚ) / 20 :: tv)).head?,
      (3 : ℚ) / 10 ≤ y := by
    intro y hy
    cases hA : accSums 0 ps with
    | nil =>
      rw [hA] at hy
      simp at hy
      rw [← hy]
      exact gProg_lower pt ps.sum
    | cons a rest =>
      rw [hA] at hy
      simp at hy
      rw [← hy]
      exact gProg_lower pt a
  constructor
  · rw [List.chain'_cons']
    constructor
    · intro y hy
      simp at hy
      rw [← hy]
    rw [List.chain'_cons']
    constructor
    · intro y hy
      cases n with
      | zero =>
        simp only [Nat.zero_add, List.replicate_succ, List.head?_cons,
          List.cons_append] at hy
        simp at hy
        rw [← hy]
        norm_num
      | succ m =>
        simp only [List.replicate_succ, List.cons_append, List.head?_cons] at hy
        simp at hy
        rw [← hy]
        norm_num
    rw [List.chain'_append]
    refine ⟨chain'_replicate_le _ _, ?_, ?_⟩
    · rw [List.chain'_append]
      refine ⟨?_, ?_, ?_⟩
      · rw [List.chain'_map]
        exact (accSums_chain ps 0).imp fun a b h => gProg_mono pt a b h
      · rw [List.chain'_cons']
        refine ⟨?_, htv⟩
        intro y hy
        simp at hy
        rw [← hy]
        exact hend
      · intro x hx y hy
        have hxm := mem_of_getLast' hx
        simp at hxm
        obtain ⟨a, ha, hxa⟩ := hxm
        simp at hy
        rw [← hy, ← hxa]
        have hale : a ≤ ps.sum := by
          have := accSums_le ps 0 a ha
          omega
        exact gProg_mono pt a ps.sum hale
    · intro x hx y hy
      have hxm := mem_of_getLast' hx
      rw [List.mem_replicate] at hxm
      rw [hxm.2]
      exact hheadM y hy
  · intro q hq
    simp only [List.mem_cons, List.mem_append, List.mem_replicate,
      List.mem_map] at hq
    rcases hq with h | h | ⟨-, h⟩ | ⟨a, ha, h⟩ | h | h | h
    · rw [h]; norm_num
    · rw [h]; norm_num
    · rw [h]; norm_num
    · rw [← h]
      constructor
      · have := gProg_lower pt a
        linarith
      · have := gProg_upper pt a hpt (hsum0 a ha)
        linarith
    · rw [h]
      constructor
      · have := gProg_lower pt ps.sum
        linarith
      · have := gProg_upper pt ps.sum hpt hsum
        linarith
    · rw [h]; norm_num
    · exact htv2 q h

/-- C5 (amended).  For a successful flash over the canonical probe-rs
loader event order (with the programmed byte counts summing to at most
the program-bar total): the emitted progress fractions are monotonically
non-decreasing and stay within `[0, 1]`; the final event is
`complete` at `1.0`; when a reset is requested the `complete` event comes
only after the `reset` event (and a failing reset suppresses `complete`).
When the download fails, however, the command emits NO terminal event of
its own: the trace is exactly the callbacks' — the claimed
"final event ∈ {complete, error}" does not hold on the failure path. -/
theorem c5_flash_progress_amended (et pt : Nat) (es ps : List Nat)
    (resetAfter : Bool) (hpt : 0 < pt) (hsum : ps.sum ≤ pt) :
    List.Chain' (· ≤ ·)
      ((flash_firmware_trace (canonicalLoaderEvents et pt es ps) true
          resetAfter true).map Prod.snd) ∧
    (∀ q ∈ (flash_firmware_trace (canonicalLoaderEvents et pt es ps) true
        resetAfter true).map Prod.snd, 0 ≤ q ∧ q ≤ 1) ∧
    (flash_firmware_trace (canonicalLoaderEvents et pt es ps) true resetAfter
        true).getLast? = some ("complete", 1) ∧
    (resetAfter = true →
      flash_firmware_trace (canonicalLoaderEvents et pt es ps) true true
          true =
        (callbackTrace ⟨0, 0, 0, 0⟩ (canonicalLoaderEvents et pt es ps) ++
            [("finishing", 19 / 20)]) ++
          [("reset", 49 / 50), ("complete", 1)]) ∧
    (flash_firmware_trace (canonicalLoaderEvents et pt es ps) true true
        false).getLast? = some ("reset", 49 / 50) ∧
    (∀ events : List LoaderEvent,
      flash_firmware_trace events false resetAfter true =
        callbackTrace ⟨0, 0, 0, 0⟩ events) := by
  have hv := canonical_vals et pt es ps resetAfter hpt
  have htv : List.Chain' (· ≤ ·)
      ((19 : ℚ) / 20 ::
        (if resetAfter then [(49 : ℚ) / 50, 1] else [1])) := by
    cases resetAfter with
    | true => simp; norm_num
    | false => simp; norm_num
  have htv2 : ∀ q ∈ (if resetAfter then [(49 : ℚ) / 50, 1] else [1]),
      0 ≤ q ∧ q ≤ 1 := by
    cases resetAfter with
    | true =>
      intro q hq
      simp at hq
      rcases hq with h | h <;> rw [h] <;> norm_num
    | false =>
      intro q hq
      simp at hq
      rw [hq]
      norm_num
  obtain ⟨hchain, hbounds⟩ :=
    c5_master pt es.length ps (if resetAfter then [(49 : ℚ) / 50, 1] else [1])
      hpt hsum htv htv2
  refine ⟨?_, ?_, ?_, ?_, ?_, ?_⟩
  · rw [hv]; exact hchain
  · rw [hv]; exact hbounds
  · unfold flash_firmware_trace
    rw [List.getLast?_append_of_ne_nil _ (by simp)]
    cases resetAfter <;> simp
  · intro h
    unfold flash_firmware_trace
    simp [List.append_assoc]
  · unfold flash_firmware_trace
    rw [List.getLast?_append_of_ne_nil _ (by simp)]
    simp
  · intro events
    simp [flash_firmware_trace]

/-- C5 counterexample.  A run whose download fails after the loader
reported only `FlashLayoutReady` ends with an `init`-phase event: the
final emitted event is neither `complete` nor `error`. -/
theorem c5_counterexample :
    (flash_firmware_trace [.flashLayoutReady] false true true).map
        Prod.fst = ["init"] ∧
    ((flash_firmware_trace [.flashLayoutReady] false true true).map
        Prod.fst).getLast? = some "init" ∧
    ("init" : String) ≠ "complete" ∧ ("init" : String) ≠ "error" :=
  ⟨rfl, rfl, by decide, by decide⟩

/-- Witness for the amended C5 at a concrete canonical run. -/
theorem c5_flash_progress_amended_witness :
    (0 : Nat) < 4096 ∧ ([2048, 2048] : List Nat).sum ≤ 4096 ∧
    (flash_firmware_trace
        (canonicalLoaderEvents 4096 4096 [4096] [2048, 2048]) true true
        true).getLast? = some ("complete", 1) ∧
    List.Chain' (· ≤ ·)
      ((flash_firmware_trace
          (canonicalLoaderEvents 4096 4096 [4096] [2048, 2048]) true true
          true).map Prod.snd) := by
  have h :=
    c5_flash_progress_amended 4096 4096 [4096] [2048, 2048] true
      (by decide) (by decide)
  exact ⟨by decide, by decide, h.2.2.1, h.1⟩

/-! ## RTT engine (`commands/rtt.rs`): claims C4, C6, C10 -/

/-- One `rtt-data` event (`timestamp`, a wall-clock value, omitted). -/
structure RttDataEventM where
  channel : Nat
  data : List Nat
deriving DecidableEq, Repr

/-- `MAX_CONSECUTIVE_ERRORS` of `rtt_polling_task` (`rtt.rs` line 241). -/
def MAX_CONSECUTIVE_ERRORS : Nat := 50

inductive PollResultM where
  | data (events : List RttDataEventM)
  | noData
  | error (msg : String)
deriving DecidableEq, Repr

/-- The environment of one polling tick: whether the session lock was
obtained within 500 ms, whether the session still exists, whether
`session.core(0)` succeeded, and the data `read_rtt_data` returned. -/
structure TickInput where
  lockOk : Bool
  sessionPresent : Bool
  coreOk : Bool
  events : List RttDataEventM
deriving DecidableEq, Repr

/-- `poll_rtt_once` (`rtt.rs` lines 342–429) with `halt_on_read = false`
(the default): lock timeout swallows the tick; a vanished session is an
immediate error; a failed core acquisition increments the consecutive
counter and turns fatal when it reaches `max_errors`; a successful core
acquisition resets the counter to zero before reading. -/
def poll_rtt_once (tick : TickInput) (consecutive_errors max_errors : Nat) :
    PollResultM × Nat :=
  if !tick.lockOk then (.noData, consecutive_errors)
  else if !tick.sessionPresent then (.error "设备连接已断开", consecutive_errors)
  else if !tick.coreOk then
    let c := consecutive_errors + 1
    if max_errors ≤ c then (.error "无法访问目标芯片", c)
    else (.noData, c)
  else if tick.events.isEmpty then (.noData, 0)
  else (.data tick.events, 0)

/-- Loop state of `rtt_polling_task`: the error counter, whether the loop
has stopped, and the error carried by the fatal `rtt-status` event when
one was emitted.  (Batching of data events is orthogonal to C4 and not
modelled.) -/
structure RttLoopState where
  consecutive_errors : Nat
  stopped : Bool
  fatal : Option String
deriving DecidableEq, Repr

/-- One iteration of the polling loop (lines 262–318): a `PollResult`
error sets `running := false`, emits the fatal `rtt-status` event and
breaks; other results continue. -/
def rtt_loop_step (st : RttLoopState) (tick : TickInput) : RttLoopState :=
  if st.stopped then st
  else
    match poll_rtt_once tick st.consecutive_errors MAX_CONSECUTIVE_ERRORS with
    | (.error msg, c) =>
      { consecutive_errors := c, stopped := true, fatal := some msg }
    | (.data _, c) => { st with consecutive_errors := c }
    | (.noData, c) => { st with consecutive_errors := c }

/-- The polling loop over a finite tick sequence. -/
def rtt_polling_run (ticks : List TickInput) : RttLoopState :=
  ticks.foldl rtt_loop_step ⟨0, false, none⟩

/-- A tick on which the core handle cannot be obtained. -/
def coreFailTick : TickInput := ⟨true, true, false, []⟩

/-! ## Claim C4: consecutive core failures -/

lemma rtt_run_fail_aux (n : Nat) : ∀ c, c + n < MAX_CONSECUTIVE_ERRORS →
    (List.replicate n coreFailTick).foldl rtt_loop_step ⟨c, false, none⟩ =
      ⟨c + n, false, none⟩ := by
  induction n with
  | zero => intro c h; simp
  | succ m ih =>
    intro c h
    rw [List.replicate_succ, List.foldl_cons]
    have hstep : rtt_loop_step ⟨c, false, none⟩ coreFailTick =
        ⟨c + 1, false, none⟩ := by
      unfold rtt_loop_step poll_rtt_once coreFailTick
      simp only [Bool.not_true, Bool.not_false, if_false, if_true]
      have hlt : ¬ MAX_CONSECUTIVE_ERRORS ≤ c + 1 := by
        unfold MAX_CONSECUTIVE_ERRORS at h ⊢
        omega
      simp [hlt]
    rw [hstep]
    have := ih (c + 1) (by omega)
    rw [this]
    congr 1
    omega

/-- C4 (amended).  FIFTY — not sixty — consecutive failures to obtain a
core handle make the polling loop emit the fatal `rtt-status` error and
stop; fewer than fifty consecutive failures are swallowed and the loop
keeps running with the counter equal to the number of failures. -/
theorem c4_rtt_error_threshold_amended (n : Nat) (h : n < 50) :
    MAX_CONSECUTIVE_ERRORS = 50 ∧
    rtt_polling_run (List.replicate n coreFailTick) = ⟨n, false, none⟩ ∧
    (rtt_polling_run (List.replicate 50 coreFailTick)).stopped = true ∧
    (rtt_polling_run (List.replicate 50 coreFailTick)).fatal =
      some "无法访问目标芯片" := by
  refine ⟨rfl, ?_, ?_, ?_⟩
  · unfold rtt_polling_run
    have := rtt_run_fail_aux n 0 (by unfold MAX_CONSECUTIVE_ERRORS; omega)
    rw [this]
    congr 1
    omega
  · have h49 := rtt_run_fail_aux 49 0
      (by unfold MAX_CONSECUTIVE_ERRORS; omega)
    unfold rtt_polling_run
    rw [show (50 : Nat) = 49 + 1 by rfl, List.replicate_add,
      List.foldl_append, h49]
    rfl
  · have h49 := rtt_run_fail_aux 49 0
      (by unfold MAX_CONSECUTIVE_ERRORS; omega)
    unfold rtt_polling_run
    rw [show (50 : Nat) = 49 + 1 by rfl, List.replicate_add,
      List.foldl_append, h49]
    rfl

set_option maxRecDepth 4096 in
/-- C4 counterexample.  Fifty consecutive core failures — fewer than the
claimed sixty — already stop the loop with the fatal error, so they are
not "swallowed without stopping". -/
theorem c4_counterexample :
    (rtt_polling_run (List.replicate 50 coreFailTick)).stopped = true ∧
    (rtt_polling_run (List.replicate 50 coreFailTick)).fatal =
      some "无法访问目标芯片" ∧
    (rtt_polling_run (List.replicate 49 coreFailTick)).stopped = false ∧
    (50 : Nat) < 60 :=
  ⟨rfl, rfl, rfl, by decide⟩

/-- Witness for the amended C4 at `n = 49`. -/
theorem c4_rtt_error_threshold_amended_witness :
    (49 : Nat) < 50 ∧
    rtt_polling_run (List.replicate 49 coreFailTick) =
      ⟨49, false, none⟩ ∧
    (rtt_polling_run (List.replicate 50 coreFailTick)).stopped = true := by
  have h := c4_rtt_error_threshold_amended 49 (by decide)
  exact ⟨by decide, h.2.1, h.2.2.1⟩

/-! ## `start_rtt` / `stop_rtt` state handling (C6, C10) -/

structure RttStartOptionsM where
  scan_mode : String
  address : Option Nat
  range_start : Option Nat
  range_size : Option Nat
  poll_interval : Option Nat
  halt_on_read : Option Bool
deriving DecidableEq, Repr

inductive ScanRegionM where
  | exact (addr : Nat)
  | range (start stop : Nat)
  | ram
deriving DecidableEq, Repr

/-- Scan-region selection of `start_rtt` (`rtt.rs` lines 72–86). -/
def scanRegionOf (o : RttStartOptionsM) : ScanRegionM :=
  if o.scan_mode = "exact" then .exact (o.address.getD 0x20000000)
  else if o.scan_mode = "range" then
    .range (o.range_start.getD 0x20000000)
      (o.range_start.getD 0x20000000 + o.range_size.getD 0x10000)
  else .ram

/-- The `found_address` computation of `start_rtt` (lines 117–128): the
caller's address when one was supplied — in ANY scan mode — and `none`
otherwise; the address of the control block that `Rtt::attach_region`
discovered during start is NOT captured. -/
def foundAddressOf (o : RttStartOptionsM) : Option Nat := o.address

/-- The RTT slot state persisted across polls (`RttState` of `state.rs`,
restricted to the fields the claims concern). -/
structure RttSlotState where
  running : Bool
  poll_interval_ms : Nat
  control_block_address : Option Nat
deriving DecidableEq, Repr

/-- `start_rtt` (lines 60–181): refuse when already running (before any
other work and without spawning); otherwise attach via the session, store
the poll configuration and `found_address`, set `running`, and spawn the
polling task (the returned `Bool`). -/
def start_rtt (st : RttSlotState) (o : RttStartOptionsM)
    (sessionPresent attachOk : Bool) :
    Except String Unit × RttSlotState × Bool :=
  if st.running then (.error "RTT 已在运行中", st, false)
  else if !sessionPresent then (.error "RTT 未连接，请先连接 RTT", st, false)
  else if !attachOk then (.error "无法附加 RTT", st, false)
  else
    (.ok (),
      { running := true
        poll_interval_ms := o.poll_interval.getD 10
        control_block_address := foundAddressOf o },
      true)

/-- `stop_rtt` (lines 496–506): a no-op success when not running, else
clear the running flag (the loop exits at its next tick). -/
def stop_rtt (st : RttSlotState) : Except String Unit × RttSlotState :=
  if !st.running then (.ok (), st)
  else (.ok (), { st with running := false })

inductive AttachMethod where
  | exactAt (addr : Nat)
  | scanRam
deriving DecidableEq, Repr

/-- How `read_rtt_data` attaches on each poll (lines 437–457): at the
cached exact address when one is stored, else by a fresh `Rtt::attach`
scan of target RAM. -/
def pollAttachMethod (cached : Option Nat) : AttachMethod :=
  match cached with
  | some addr => .exactAt addr
  | none => .scanRam

/-! ## Claim C6: control-block address caching -/

/-- C6 (amended).  After a successful `start_rtt`, the control-block
address is cached if and ONLY if the caller supplied one in the options
(whatever the scan mode): then every poll attaches at that exact address.
When no address was supplied — in particular in `auto` and `range` scan
modes — nothing is cached even though attachment discovered the control
block, and every subsequent poll re-scans target RAM. -/
theorem c6_rtt_cache_amended (st : RttSlotState) (o : RttStartOptionsM)
    (hr : st.running = false) :
    ((start_rtt st o true true).1 = .ok ()) ∧
    ((start_rtt st o true true).2.1.control_block_address = o.address) ∧
    (o.address = none →
      pollAttachMethod (start_rtt st o true true).2.1.control_block_address =
        .scanRam) ∧
    (∀ a, o.address = some a →
      pollAttachMethod (start_rtt st o true true).2.1.control_block_address =
        .exactAt a) := by
  unfold start_rtt foundAddressOf
  rw [hr]
  refine ⟨by simp, by simp, ?_, ?_⟩
  · intro h
    simp [pollAttachMethod, h]
  · intro a h
    simp [pollAttachMethod, h]

/-- Options of the C6 scenario: `auto` scan mode, no explicit address. -/
def autoOptions : RttStartOptionsM := ⟨"auto", none, none, none, none, none⟩

/-- C6 counterexample.  A successful `auto`-mode start (the attach found
the control block) caches NO address, and the subsequent polls attach by
scanning RAM rather than at an exact address. -/
theorem c6_counterexample :
    (start_rtt ⟨false, 10, none⟩ autoOptions true true).1 = .ok () ∧
    (start_rtt ⟨false, 10, none⟩ autoOptions true
        true).2.1.control_block_address = none ∧
    pollAttachMethod
        (start_rtt ⟨false, 10, none⟩ autoOptions true
          true).2.1.control_block_address = .scanRam ∧
    pollAttachMethod
        (start_rtt ⟨false, 10, none⟩ autoOptions true
          true).2.1.control_block_address ≠ .exactAt 0x20000100 :=
  ⟨rfl, rfl, rfl, by decide⟩

/-- Witness for the amended C6 at concrete inputs (one exact-address
start, shown through the theorem's last clause). -/
theorem c6_rtt_cache_amended_witness :
    (start_rtt ⟨false, 10, none⟩
        ⟨"exact", some 0x20000100, none, none, none, none⟩ true
        true).1 = .ok () ∧
    pollAttachMethod
        (start_rtt ⟨false, 10, none⟩
          ⟨"exact", some 0x20000100, none, none, none, none⟩ true
          true).2.1.control_block_address = .exactAt 0x20000100 := by
  have h :=
    c6_rtt_cache_amended ⟨false, 10, none⟩
      ⟨"exact", some 0x20000100, none, none, none, none⟩ rfl
  exact ⟨h.1, h.2.2.2 0x20000100 rfl⟩

/-! ## Claim C10: at most one polling loop -/

/-- C10.  Starting RTT while the loop is already marked running returns
the distinct error without touching the state and without spawning a
task; stopping RTT when it is not running succeeds as a strict no-op; and
a task is spawned only from the not-running state, which the start
transitions to running — so at most one polling loop exists at a time. -/
theorem c10_rtt_single_loop (st : RttSlotState) (o : RttStartOptionsM)
    (sessionPresent attachOk : Bool) :
    (st.running = true →
      (start_rtt st o sessionPresent attachOk).1 = .error "RTT 已在运行中" ∧
      (start_rtt st o sessionPresent attachOk).2.1 = st ∧
      (start_rtt st o sessionPresent attachOk).2.2 = false) ∧
    (st.running = false → stop_rtt st = (.ok (), st)) ∧
    ((start_rtt st o sessionPresent attachOk).2.2 = true →
      st.running = false ∧
      (start_rtt st o sessionPresent attachOk).2.1.running = true) := by
  refine ⟨?_, ?_, ?_⟩
  · intro h
    unfold start_rtt
    rw [h]
    simp
  · intro h
    unfold stop_rtt
    rw [h]
    simp
  · intro h
    by_cases hr : st.running
    · unfold start_rtt at h
      rw [if_pos hr] at h
      simp at h
    · refine ⟨by simpa using hr, ?_⟩
      unfold start_rtt at h ⊢
      by_cases hs : sessionPresent
      · by_cases ha : attachOk
        · simp [hr, hs, ha]
        · simp [hr, hs, ha] at h
      · simp [hr, hs] at h

/-- Witness for C10 at concrete states. -/
theorem c10_rtt_single_loop_witness :
    (start_rtt ⟨true, 10, none⟩ autoOptions true true).1 =
      .error "RTT 已在运行中" ∧
    (start_rtt ⟨true, 10, none⟩ autoOptions true true).2.2 = false ∧
    stop_rtt ⟨false, 10, none⟩ = (.ok (), ⟨false, 10, none⟩) := by
  have h := c10_rtt_single_loop ⟨true, 10, none⟩ autoOptions true true
  have h2 := c10_rtt_single_loop ⟨false, 10, none⟩ autoOptions true true
  exact ⟨(h.1 rfl).1, (h.1 rfl).2.2, h2.2.1 rfl⟩
